import Mathlib

/-!
Verification of the FASearchBot subscription-watcher core against its
natural-language specification.

The development shallowly embeds the Python sources under
`fa_search_bot/subscriptions/` (notably `wait_pool.py`, `query_parser.py`,
`query_target.py` and `subscription.py`).  Pure functions become Lean
functions; the mutable wait pool becomes explicit state passing over a
`WaitPool` structure.  Python object aliasing between the two dictionaries
`submission_state` and `active_states` (both may reference the *same*
`SubmissionCheckState` object) is modelled with an explicit heap: a list of
state records addressed by allocation index, with both dictionaries mapping
submission ids to heap addresses.

Payload values that the wait pool stores but never inspects
(`FASubmissionFull`, `DownloadedFile`/`SendSettings` pairs, `SentSubmission`,
`UploadedMedia`, `Subscription` match lists) are modelled as opaque `Nat`
tokens: the code only ever stores them and tests them against `None`.
-/

namespace FASearch

/-- Modelled from the spec: `SubmissionID` (module
`fa_search_bot.sites.submission_id` is not part of the provided sources) is an
"opaque totally-ordered identifier (monotonically increasing integer key
derived from site id)"; `wait_pool.py` reads `sub_id.submission_id` and
converts it with `int(...)`.  We keep the site tag so that distinct ids can
share an integer key. -/
structure SubmissionID where
  site : String
  submission_id : Nat
deriving DecidableEq, Repr

/-- `SubmissionCheckState` from `wait_pool.py` (dataclass, lines 21-69).
Field defaults follow the dataclass defaults. -/
structure SubmissionCheckState where
  sub_id : SubmissionID
  full_data : Option Nat := none
  matching_subscriptions : Option (List Nat) := none
  media_downloading : Bool := false
  dl_file : Option Nat := none
  media_uploading : Bool := false
  cache_entry : Option Nat := none
  uploaded_media : Option Nat := none
  sent_to : List Int := []
deriving DecidableEq, Repr

namespace SubmissionCheckState

/-- `SubmissionCheckState.key`: `int(self.sub_id.submission_id)`. -/
def key (s : SubmissionCheckState) : Nat :=
  s.sub_id.submission_id

/-- `SubmissionCheckState.reset` (lines 36-43): clears every per-stage field,
leaving `sub_id` and `sent_to` untouched. -/
def reset (s : SubmissionCheckState) : SubmissionCheckState :=
  { s with
    full_data := none
    matching_subscriptions := none
    media_downloading := false
    dl_file := none
    media_uploading := false
    cache_entry := none
    uploaded_media := none }

/-- `is_ready_for_media_download` (lines 45-52). -/
def is_ready_for_media_download (s : SubmissionCheckState) : Bool :=
  s.full_data.isSome && s.dl_file.isNone && !s.media_downloading

/-- `is_ready_to_send` (lines 63-69). -/
def is_ready_to_send (s : SubmissionCheckState) : Bool :=
  s.uploaded_media.isSome || s.cache_entry.isSome

/-- `is_ready_for_media_upload` (lines 54-61). -/
def is_ready_for_media_upload (s : SubmissionCheckState) : Bool :=
  s.dl_file.isSome && !s.media_uploading && !s.is_ready_to_send

end SubmissionCheckState

/-- Creating `SubmissionCheckState(sub_id)` with all dataclass defaults. -/
def initState (id : SubmissionID) : SubmissionCheckState :=
  { sub_id := id }

/-! ### Dictionaries

Python `dict`s keyed by `SubmissionID` are modelled as association lists.
Python dictionaries preserve insertion order; none of the claims proved below
depend on iteration order (minimum-key selection is order-independent except
for ties between distinct ids with equal integer keys, which no claim relies
on), so `dictInsert` is implemented as remove-then-append. -/

abbrev Addr := Nat
abbrev SubDict := List (SubmissionID × Addr)

/-- `d[k]` lookup returning `none` when the key is missing. -/
def dictFind (d : SubDict) (k : SubmissionID) : Option Addr :=
  (d.find? (fun b => b.1 = k)).map (·.2)

/-- `d[k] = a`. -/
def dictInsert (d : SubDict) (k : SubmissionID) (a : Addr) : SubDict :=
  d.filter (fun b => b.1 ≠ k) ++ [(k, a)]

/-- `del d[k]` (the claims only use it on present keys; on a missing key the
callers model the `KeyError` separately). -/
def dictErase (d : SubDict) (k : SubmissionID) : SubDict :=
  d.filter (fun b => b.1 ≠ k)

/-- Modelled from the spec: the two-tier `FetchQueue` of §4.5
(`fa_search_bot/subscriptions/fetch_queue.py` is not part of the provided
sources).  "Two ordered queues, `new` and `refresh`.  `refresh` carries a
per-id refresh counter.  `put_new(id)` appends to `new`; `put_refresh(id)`
appends to `refresh` and increments that id's counter, failing
`TooManyRefresh` if the counter exceeds `fetch_refresh_limit`." -/
structure FetchQueue where
  newQ : List SubmissionID := []
  refreshQ : List SubmissionID := []
  counters : List (SubmissionID × Nat) := []
  refresh_limit : Nat := 25
deriving DecidableEq, Repr

namespace FetchQueue

/-- Modelled from the spec: `put_new(id)` — append to the `new` tier. -/
def put_new (q : FetchQueue) (id : SubmissionID) : FetchQueue :=
  { q with newQ := q.newQ ++ [id] }

/-- Modelled from the spec: `put_refresh(id)` — bump the id's refresh counter
and append to the `refresh` tier, failing `TooManyRefresh` when the counter
exceeds `fetch_refresh_limit`. -/
def put_refresh (q : FetchQueue) (id : SubmissionID) : Except String FetchQueue :=
  let c := ((q.counters.find? (fun b => b.1 = id)).map (·.2)).getD 0 + 1
  if c > q.refresh_limit then
    .error "TooManyRefresh"
  else
    .ok { q with
          refreshQ := q.refreshQ ++ [id]
          counters := q.counters.filter (fun b => b.1 ≠ id) ++ [(id, c)] }

end FetchQueue

/-- The `WaitPool` state (`wait_pool.py` lines 72-88): the heap holds every
`SubmissionCheckState` object ever allocated (addresses are allocation
indices and are never reused), and the two dictionaries map ids to heap
addresses — this captures Python's aliasing, where `submission_state[k]` and
`active_states[k]` can be the very same mutable object. -/
structure WaitPool where
  max_ready_for_upload : Nat := 100
  heap : List SubmissionCheckState := []
  submission_state : SubDict := []
  active_states : SubDict := []
  fetch_data_queue : FetchQueue := {}
deriving DecidableEq, Repr

namespace WaitPool

/-- `size` (line 214): `len(self.submission_state)`. -/
def size (p : WaitPool) : Nat :=
  p.submission_state.length

/-- `size_active` (line 217): `len(self.active_states)`. -/
def size_active (p : WaitPool) : Nat :=
  p.active_states.length

/-- Mutating the heap object at address `a` in place. -/
def heapModify (p : WaitPool) (a : Addr)
    (f : SubmissionCheckState → SubmissionCheckState) : WaitPool :=
  match p.heap.get? a with
  | none => p
  | some s => { p with heap := p.heap.set a (f s) }

/-- `add_sub_id` (lines 90-94): allocate a fresh `SubmissionCheckState`, bind
it in `submission_state` and put the id on the fetch queue's `new` tier. -/
def add_sub_id (p : WaitPool) (id : SubmissionID) : WaitPool :=
  { p with
    heap := p.heap ++ [initState id]
    submission_state := dictInsert p.submission_state id p.heap.length
    fetch_data_queue := p.fetch_data_queue.put_new id }

/-- `set_fetched_data` (lines 99-117).  The result `none` models the
backpressure gate: when the id is not actively handled and
`size_active() > max_ready_for_upload`, the call loops on
`media_uploading_event.wait()` and (absent concurrent pool changes) never
returns.  Otherwise the body runs under the lock: an id unknown to
`submission_state` is silently dropped; a known id has its `full_data` and
`matching_subscriptions` recorded and is copied into `active_states`. -/
def set_fetched_data (p : WaitPool) (id : SubmissionID) (full_data : Nat)
    (matching_subscriptions : List Nat) : Option WaitPool :=
  if (dictFind p.active_states id).isNone ∧ p.size_active > p.max_ready_for_upload then
    none
  else
    some <|
      match dictFind p.submission_state id with
      | none => p
      | some a =>
        let p' := p.heapModify a (fun s =>
          { s with
            full_data := some full_data
            matching_subscriptions := some matching_subscriptions })
        { p' with active_states := dictInsert p'.active_states id a }

/-- `revert_data_fetch` (lines 119-127): insert a fresh state when the id is
unknown, reset the per-stage fields, leave `active_states` alone, and
re-queue the id on the fetch queue's refresh tier (which may fail
`TooManyRefresh`; in that error case the Python mutations precede the raise,
which no claim below depends on). -/
def revert_data_fetch (p : WaitPool) (id : SubmissionID) : Except String WaitPool :=
  let p1 : WaitPool :=
    match dictFind p.submission_state id with
    | some _ => p
    | none =>
      { p with
        heap := p.heap ++ [initState id]
        submission_state := dictInsert p.submission_state id p.heap.length }
  match dictFind p1.submission_state id with
  | none => .error "unreachable"
  | some a =>
    let p2 := p1.heapModify a (·.reset)
    (p2.fetch_data_queue.put_refresh id).map (fun q =>
      { p2 with fetch_data_queue := q })

/-- `set_downloaded` (lines 143-148): unknown ids are silently dropped. -/
def set_downloaded (p : WaitPool) (id : SubmissionID) (downloaded : Nat) : WaitPool :=
  match dictFind p.submission_state id with
  | none => p
  | some a =>
    p.heapModify a (fun s =>
      { s with dl_file := some downloaded, media_downloading := false })

/-- `set_cached` (lines 166-171): unknown ids are silently dropped. -/
def set_cached (p : WaitPool) (id : SubmissionID) (cache_entry : Nat) : WaitPool :=
  match dictFind p.submission_state id with
  | none => p
  | some a =>
    p.heapModify a (fun s =>
      { s with cache_entry := some cache_entry, media_uploading := false })

/-- `set_uploaded` (lines 173-178): unknown ids are silently dropped. -/
def set_uploaded (p : WaitPool) (id : SubmissionID) (uploaded : Nat) : WaitPool :=
  match dictFind p.submission_state id with
  | none => p
  | some a =>
    p.heapModify a (fun s =>
      { s with uploaded_media := some uploaded, media_uploading := false })

/-- `remove_state` (lines 180-184): raises `ValueError` on an unknown id,
otherwise deletes the id from `submission_state` only. -/
def remove_state (p : WaitPool) (id : SubmissionID) : Except String WaitPool :=
  match dictFind p.submission_state id with
  | none => .error "This state cannot be removed because it is not in the wait pool"
  | some _ => .ok { p with submission_state := dictErase p.submission_state id }

/-- The current `submission_state.values()`, paired with heap addresses. -/
def subStateValues (p : WaitPool) : List (Addr × SubmissionCheckState) :=
  p.submission_state.filterMap (fun b => (p.heap.get? b.2).map (fun s => (b.2, s)))

/-- Python `min(states, key=lambda s: s.key())`: the first element whose key
is minimal. -/
def pyMin : List (Addr × SubmissionCheckState) → Option (Addr × SubmissionCheckState)
  | [] => none
  | x :: xs => some (xs.foldl (fun m s => if s.2.key < m.2.key then s else m) x)

/-- `pop_next_ready_to_send` (lines 189-206): select the minimum-key state of
`submission_state`; return `none` when the pool is empty or that state is not
ready to send; otherwise delete it from both dictionaries and return it.  The
`.error` case models the `KeyError` raised by `del self.active_states[...]`
when the chosen id is not active (Python has then already deleted it from
`submission_state`; no claim depends on the post-raise state). -/
def pop_next_ready_to_send (p : WaitPool) :
    Except String (Option (Addr × SubmissionCheckState) × WaitPool) :=
  match pyMin p.subStateValues with
  | none => .ok (none, p)
  | some (a, s) =>
    if !s.is_ready_to_send then
      .ok (none, p)
    else if (dictFind p.active_states s.sub_id).isNone then
      .error "KeyError"
    else
      .ok (some (a, s),
        { p with
          submission_state := dictErase p.submission_state s.sub_id
          active_states := dictErase p.active_states s.sub_id })

/-- `return_populated_state` (lines 208-212): the state object (identified
here by its heap address) is re-bound in `submission_state`, and in
`active_states` exactly when its `full_data` is set. -/
def return_populated_state (p : WaitPool) (a : Addr) : WaitPool :=
  match p.heap.get? a with
  | none => p
  | some s =>
    { p with
      submission_state := dictInsert p.submission_state s.sub_id a
      active_states :=
        if s.full_data.isSome then dictInsert p.active_states s.sub_id a
        else p.active_states }

end WaitPool

/-! ### The wait-pool invariant

`InvPool` is P6 of the spec: `active_states ⊆ submission_state` (same id
bound to the same state object) and an id tracked in `submission_state` is
active exactly when its `full_data` is set.  `WfPool` adds the well-formedness
facts that the Python implementation maintains implicitly: every bound
address points into the heap at an object carrying the binding's id, and the
dictionaries have no duplicate keys. -/

def InvPool (p : WaitPool) : Prop :=
  (∀ b ∈ p.active_states, dictFind p.submission_state b.1 = some b.2) ∧
  (∀ b ∈ p.submission_state,
    (dictFind p.active_states b.1).isSome =
      ((p.heap.get? b.2).bind (·.full_data)).isSome)

def WfPool (p : WaitPool) : Prop :=
  InvPool p ∧
  (∀ b ∈ p.submission_state, (p.heap.get? b.2).map (·.sub_id) = some b.1) ∧
  (∀ b ∈ p.active_states, (p.heap.get? b.2).map (·.sub_id) = some b.1) ∧
  (p.submission_state.map Prod.fst).Nodup ∧
  (p.active_states.map Prod.fst).Nodup

instance (p : WaitPool) : Decidable (InvPool p) := by
  unfold InvPool; infer_instance

instance (p : WaitPool) : Decidable (WfPool p) := by
  unfold WfPool; infer_instance

/-! ### Tokenizer and fields (`query_target.py`)

Texts are modelled as `List Char`.  The separator class is
`P = whitespace ∪ (ASCII punctuation minus "-" and "_")` exactly as built in
`query_target.py` from `string.punctuation`; Python's `\s` is modelled by its
ASCII part (the concrete inputs below contain no exotic whitespace), and
case-insensitive regex matching is modelled by comparing `Char.toLower`
images (ASCII case folding). -/

abbrev Str := List Char

def lowerStr (s : Str) : Str := s.map Char.toLower

/-- `string.punctuation.replace("-", "").replace("_", "")`. -/
def punctChars : Str :=
  ['!', '\"', '#', '$', '%', '&', Char.ofNat 39, '(', ')', '*', '+', ',',
   '.', '/', ':', ';', '<', '=', '>', '?', '@', '[', '\\', ']', '^',
   Char.ofNat 96, Char.ofNat 123, '|', Char.ofNat 125, '~']

/-- The characters matched by `\s` (ASCII part). -/
def spaceChars : Str :=
  [' ', '\t', '\n', '\r', Char.ofNat 11, Char.ofNat 12]

/-- Membership in the class `[\s + punctuation]` used by `punctuation_pattern`
and the boundary patterns. -/
def isSepChar (c : Char) : Bool :=
  spaceChars.contains c || punctChars.contains c

/-- One step of `re.split` on a character class, processed right to left; the
boolean remembers whether the previous (right-hand) character was a
separator, so that a run of separators splits only once. -/
def splitStep (sep : Char → Bool) (c : Char) : List Str × Bool → List Str × Bool
  | (acc, lastSep) =>
    if sep c then
      if lastSep then (acc, true) else ([] :: acc, true)
    else
      match acc with
      | w :: ws => ((c :: w) :: ws, false)
      | [] => ([[c]], false)

/-- `re.split` on runs of a character class (runs of separators split;
boundary separators contribute empty tokens). -/
def splitOn (sep : Char → Bool) (t : Str) : List Str :=
  (t.foldr (splitStep sep) ([[]], false)).1

/-- `_split_text_to_words`: `re.split(punctuation_pattern, text)`. -/
def splitToWords (t : Str) : List Str :=
  splitOn isSepChar t

/-- Python `str.strip(punctuation)`: remove leading and trailing characters
belonging to the punctuation set (not whitespace). -/
def stripPunct (w : Str) : Str :=
  ((w.dropWhile (fun c => punctChars.contains c)).reverse.dropWhile
    (fun c => punctChars.contains c)).reverse

/-- `_clean_word_list` applied to one word: `x.lower().strip(punctuation)`. -/
def cleanWord (w : Str) : Str :=
  stripPunct (lowerStr w)

/-- `_split_text_to_cleaned_words`. -/
def splitToCleanedWords (t : Str) : List Str :=
  (splitToWords t).map cleanWord

/-- `Rating` from `sites/submission.py`. -/
inductive Rating where
  | general
  | mature
  | adult
deriving DecidableEq, Repr

/-- `QueryTarget` (`subscriptions/query_target.py` lines 176-192): raw field
values; the `Field` views below are computed from them. -/
structure QueryTarget where
  sub_id : SubmissionID
  title : List Str
  description : List Str
  keywords : List Str
  artist : List Str
  rating : Rating
deriving DecidableEq, Repr

/-- `FieldLocation` tags: the dictionary keys `"title_0"`, `"keyword_3"`, …
produced by the `texts_dict` methods. -/
inductive FieldLocation where
  | title (n : Nat)
  | description (n : Nat)
  | keyword (n : Nat)
  | artist (n : Nat)
deriving DecidableEq, Repr

/-- A query's field selector: one of the four `SpecificField` classes or
`AnyField` (the default when a query has no field). -/
inductive FieldSel where
  | title
  | description
  | keyword
  | artist
  | anyField
deriving DecidableEq, Repr

/-- `Field.words()` per class: title and description split each text into
cleaned words; keywords are cleaned as single words; artists are only
lower-cased; `AnyField` concatenates title, description, keyword, artist. -/
def fieldWords : FieldSel → QueryTarget → List Str
  | .title, t => (t.title.map splitToCleanedWords).flatten
  | .description, t => (t.description.map splitToCleanedWords).flatten
  | .keyword, t => t.keywords.map cleanWord
  | .artist, t => t.artist.map lowerStr
  | .anyField, t =>
    (t.title.map splitToCleanedWords).flatten ++
      (t.description.map splitToCleanedWords).flatten ++
      t.keywords.map cleanWord ++ t.artist.map lowerStr

/-- `Field.texts()` per class. -/
def fieldTexts : FieldSel → QueryTarget → List Str
  | .title, t => t.title
  | .description, t => t.description
  | .keyword, t => t.keywords
  | .artist, t => t.artist
  | .anyField, t => t.title ++ t.description ++ t.keywords ++ t.artist

/-- `Field.texts_dict()` per class; `AnyField` merges the four dictionaries
(whose key families are disjoint). -/
def fieldTextsDict : FieldSel → QueryTarget → List (FieldLocation × Str)
  | .title, t => t.title.enum.map (fun b => (.title b.1, b.2))
  | .description, t => t.description.enum.map (fun b => (.description b.1, b.2))
  | .keyword, t => t.keywords.enum.map (fun b => (.keyword b.1, b.2))
  | .artist, t => t.artist.enum.map (fun b => (.artist b.1, b.2))
  | .anyField, t =>
    t.title.enum.map (fun b => ((FieldLocation.title b.1), b.2)) ++
      t.description.enum.map (fun b => ((FieldLocation.description b.1), b.2)) ++
      t.keywords.enum.map (fun b => ((FieldLocation.keyword b.1), b.2)) ++
      t.artist.enum.map (fun b => ((FieldLocation.artist b.1), b.2))

/-! ### Match locations and the regex engine (`query_parser.py`)

The only regular expressions the query engine compiles are
`boundary_start + escape(lit) + boundary_end` (word and phrase queries),
`boundary_start + escape(lit) + [^P]+ + boundary_end` (prefix queries),
`boundary_start + [^P]+ + escape(lit) + boundary_end` (suffix queries) and
`boundary_start + escape(p0) + [^P]+ + escape(p1) + … + boundary_end`
(embedded-asterisk queries), all with `re.I`.  They are implemented directly:
a "match at position i" function returns the end position of the (greedy,
backtracking) match, and `finditer` is the standard left-to-right scan that
resumes after each match. -/

structure MatchLocation where
  field : FieldLocation
  startPos : Nat
  stopPos : Nat
deriving DecidableEq, Repr

namespace MatchLocation

/-- `MatchLocation.overlaps` (`query_parser.py` lines 51-57), verbatim. -/
def overlaps (self loc : MatchLocation) : Bool :=
  if self.field ≠ loc.field then false
  else if self.startPos < loc.startPos then self.stopPos > loc.startPos
  else loc.stopPos > self.startPos

/-- `MatchLocation.overlaps_any` (lines 59-60). -/
def overlapsAny (self : MatchLocation) (locations : List MatchLocation) : Bool :=
  locations.any (fun location => self.overlaps location)

end MatchLocation

/-- `boundary_pattern_start`: start of string, or preceded by a separator. -/
def boundaryStart (t : Str) (i : Nat) : Bool :=
  i == 0 ||
    (match t.get? (i - 1) with
     | some c => isSepChar c
     | none => false)

/-- `boundary_pattern_end`: end of string, or followed by a separator. -/
def boundaryEnd (t : Str) (i : Nat) : Bool :=
  i == t.length ||
    (match t.get? i with
     | some c => isSepChar c
     | none => false)

/-- Case-insensitive literal match of `lit` at position `i` of `t`. -/
def litAt (t : Str) (i : Nat) (lit : Str) : Bool :=
  decide (i + lit.length ≤ t.length) &&
    lowerStr ((t.drop i).take lit.length) == lowerStr lit

/-- Length of the maximal run of non-separator characters (`[^P]+` greedy)
starting at position `i`. -/
def maxRun (t : Str) (i : Nat) : Nat :=
  ((t.drop i).takeWhile (fun c => !isSepChar c)).length

/-- Match of `boundary_start + lit + boundary_end` at position `i` (word and
phrase regexes), returning the end position. -/
def phraseMatchAt (lit t : Str) (i : Nat) : Option Nat :=
  if boundaryStart t i && litAt t i lit && boundaryEnd t (i + lit.length) then
    some (i + lit.length)
  else
    none

/-- Match of `boundary_start + lit + [^P]+ + boundary_end` at `i` (prefix
regex): the greedy run extends to the next separator, which then satisfies
the end boundary; at least one running character is required. -/
def pfxMatchAt (lit t : Str) (i : Nat) : Option Nat :=
  if boundaryStart t i && litAt t i lit &&
      decide (1 ≤ maxRun t (i + lit.length)) then
    some (i + lit.length + maxRun t (i + lit.length))
  else
    none

/-- Backtracking search for the suffix regex: try run lengths `k, k-1, …, 1`
(greedy `[^P]+` backtracks from the maximal run) until `lit` and the end
boundary match. -/
def sfxFind (t lit : Str) (i : Nat) : Nat → Option Nat
  | 0 => none
  | k + 1 =>
    if litAt t (i + (k + 1)) lit && boundaryEnd t (i + (k + 1) + lit.length) then
      some (i + (k + 1) + lit.length)
    else
      sfxFind t lit i k

/-- Match of `boundary_start + [^P]+ + lit + boundary_end` at `i` (suffix
regex). -/
def sfxMatchAt (lit t : Str) (i : Nat) : Option Nat :=
  if boundaryStart t i then sfxFind t lit i (maxRun t i) else none

/-- Backtracking over the run length before one part of an embedded-asterisk
regex: try `k, k-1, …, 1` characters of `[^P]+`, each time requiring the part
to match and the continuation to succeed. -/
def wildTryK (t p : Str) (cont : Nat → Option Nat) (j : Nat) : Nat → Option Nat
  | 0 => none
  | k + 1 =>
    if litAt t (j + (k + 1)) p then
      match cont (j + (k + 1) + p.length) with
      | some e => some e
      | none => wildTryK t p cont j k
    else
      wildTryK t p cont j k

/-- Match the tail `([^P]+ pₖ)* + boundary_end` of an embedded-asterisk regex
from position `j`. -/
def wildTail (t : Str) : List Str → Nat → Option Nat
  | [], j => if boundaryEnd t j then some j else none
  | p :: ps, j => wildTryK t p (fun j2 => wildTail t ps j2) j (maxRun t j)

/-- Match of the full embedded-asterisk regex
(`RegexQuery.from_string_with_asterisks`) at position `i`. -/
def wildMatchAt (parts : List Str) (t : Str) (i : Nat) : Option Nat :=
  match parts with
  | [] => none
  | p0 :: rest =>
    if boundaryStart t i && litAt t i p0 then
      wildTail t rest (i + p0.length)
    else
      none

/-- `re.finditer` driver: scan positions left to right, resuming after the
end of each match (one past it for a zero-width match). -/
def scanFrom (f : Nat → Option Nat) (tlen : Nat) : Nat → Nat → List (Nat × Nat)
  | 0, _ => []
  | fuel + 1, i =>
    if i > tlen then []
    else
      match f i with
      | some j => (i, j) :: scanFrom f tlen fuel (if j > i then j else i + 1)
      | none => scanFrom f tlen fuel (i + 1)

/-- All matches of the position matcher `f` in `t`, as `(start, end)`. -/
def finditer (f : Str → Nat → Option Nat) (t : Str) : List (Nat × Nat) :=
  scanFrom (f t) t.length (t.length + 2) 0

/-- `pattern.search(text)` for a position matcher: does any position match? -/
def searchLit (f : Str → Nat → Option Nat) (t : Str) : Bool :=
  (List.range (t.length + 1)).any (fun i => (f t i).isSome)

/-- The `match_locations` list built from a field's `texts_dict()`. -/
def locsOf (f : Str → Nat → Option Nat)
    (dict : List (FieldLocation × Str)) : List MatchLocation :=
  dict.flatMap (fun b =>
    (finditer f b.2).map (fun m => ⟨b.1, m.1, m.2⟩))

/-- Deduplication used to model `list(set(..))` (the Python set's iteration
order is unspecified; only membership matters to the claims). -/
def dedup (ls : List MatchLocation) : List MatchLocation :=
  ls.foldr (fun l acc => if acc.contains l then acc else l :: acc) []

/-! ### Location queries and the query AST -/

/-- The location-producing queries (`LocationQuery` subclasses): `WordQuery`,
`PrefixQuery`, `SuffixQuery`, `PhraseQuery`, the embedded-asterisk
`RegexQuery` built by `from_string_with_asterisks` (the only `RegexQuery`
constructed in the repository), and `LocationOrQuery`. -/
inductive LocQuery where
  | word (w : Str) (f : FieldSel)
  | pfx (p : Str) (f : FieldSel)
  | sfx (s : Str) (f : FieldSel)
  | phrase (p : Str) (f : FieldSel)
  | wild (parts : List Str) (f : FieldSel)
  | locOr (qs : List LocQuery)

mutual

/-- `match_locations` per class.  `LocationOrQuery.match_locations` is
`list(set(..))` in Python — deduplicating with an unspecified order; it is
modelled as concatenation followed by `eraseDups` (same members). -/
def matchLocations : LocQuery → QueryTarget → List MatchLocation
  | .word w f, T => locsOf (phraseMatchAt w) (fieldTextsDict f T)
  | .pfx p f, T => locsOf (pfxMatchAt p) (fieldTextsDict f T)
  | .sfx s f, T => locsOf (sfxMatchAt s) (fieldTextsDict f T)
  | .phrase p f, T => locsOf (phraseMatchAt p) (fieldTextsDict f T)
  | .wild parts f, T => locsOf (wildMatchAt parts) (fieldTextsDict f T)
  | .locOr qs, T => dedup (matchLocationsList qs T)

def matchLocationsList : List LocQuery → QueryTarget → List MatchLocation
  | [], _ => []
  | q :: qs, T => matchLocations q T ++ matchLocationsList qs T

end

mutual

/-- `matches_submission` per location-query class: word/prefix/suffix/regex
queries scan the field's word list, phrase queries search the texts,
`LocationOrQuery` inherits `OrQuery`'s any-semantics. -/
def locMatches : LocQuery → QueryTarget → Bool
  | .word w f, T => (fieldWords f T).contains (lowerStr w)
  | .pfx p f, T =>
    (fieldWords f T).any (fun wd =>
      (lowerStr p).isPrefixOf wd && decide (wd ≠ lowerStr p))
  | .sfx s f, T =>
    (fieldWords f T).any (fun wd =>
      (lowerStr s).isSuffixOf wd && decide (wd ≠ lowerStr s))
  | .phrase p f, T => (fieldTexts f T).any (fun t => searchLit (phraseMatchAt p) t)
  | .wild parts f, T =>
    (fieldWords f T).any (fun wd => searchLit (wildMatchAt parts) wd)
  | .locOr qs, T => locMatchesList qs T

def locMatchesList : List LocQuery → QueryTarget → Bool
  | [], _ => false
  | q :: qs, T => locMatches q T || locMatchesList qs T

end

/-- The query AST (`Query` subclasses that are not location queries, plus an
injection of the location queries). -/
inductive Query where
  | ratingQ (r : Rating)
  | andQ (qs : List Query)
  | orQ (qs : List Query)
  | notQ (q : Query)
  | exceptQ (w e : LocQuery)
  | locQ (l : LocQuery)

mutual

/-- `matches_submission` over the AST; `ExceptionQuery.matches_submission`
(lines 378-381) is: some word-location does not overlap any
exception-location. -/
def matchesSubmission : Query → QueryTarget → Bool
  | .ratingQ r, T => T.rating == r
  | .andQ qs, T => allMatch qs T
  | .orQ qs, T => anyMatch qs T
  | .notQ q, T => !matchesSubmission q T
  | .exceptQ w e, T =>
    (matchLocations w T).any (fun l => !(l.overlapsAny (matchLocations e T)))
  | .locQ l, T => locMatches l T

/-- `all(q.matches_submission(sub) for q in self.sub_queries)`. -/
def allMatch : List Query → QueryTarget → Bool
  | [], _ => true
  | q :: qs, T => matchesSubmission q T && allMatch qs T

/-- `any(q.matches_submission(sub) for q in self.sub_queries)`. -/
def anyMatch : List Query → QueryTarget → Bool
  | [], _ => false
  | q :: qs, T => matchesSubmission q T || anyMatch qs T

end

/-- The `AndQuery` constructor flattens `AndQuery` children (lines 130-137). -/
def flattenAnd : List Query → List Query
  | [] => []
  | q :: qs =>
    (match q with
     | .andQ l => l
     | _ => [q]) ++ flattenAnd qs

def mkAnd (qs : List Query) : Query :=
  .andQ (flattenAnd qs)

/-- The `OrQuery` constructor flattens `OrQuery` children (lines 89-96). -/
def flattenOr : List Query → List Query
  | [] => []
  | q :: qs =>
    (match q with
     | .orQ l => l
     | _ => [q]) ++ flattenOr qs

def mkOr (qs : List Query) : Query :=
  .orQ (flattenOr qs)

/-- The `LocationOrQuery` constructor flattens nested location-ors
(lines 115-124). -/
def flattenLocOr : List LocQuery → List LocQuery
  | [] => []
  | q :: qs =>
    (match q with
     | .locOr l => l
     | _ => [q]) ++ flattenLocOr qs

def mkLocOr (qs : List LocQuery) : LocQuery :=
  .locOr (flattenLocOr qs)

/-! ### Subscriptions (`subscription.py`) -/

/-- `Subscription`: the parsed query plus the mutable flags the matching path
reads. -/
structure Subscription where
  query_str : Str
  query : Query
  destination : Int
  latest_update : Option Nat := none
  paused : Bool := false

/-- `Subscription.matches_result` (lines 55-63): paused subscriptions match
nothing; otherwise the subscription query and the blocklist query are
evaluated as two separate boolean calls. -/
def Subscription.matches_result (s : Subscription) (result : QueryTarget)
    (blocklist_query : Option Query) : Bool :=
  if s.paused then false
  else
    match blocklist_query with
    | some b => matchesSubmission s.query result && matchesSubmission b result
    | none => matchesSubmission s.query result

/-- `DestinationBlocklist` (lines 12-44): a map from query strings to parsed
queries (the lazily cached combined query is a pure function of it). -/
structure DestinationBlocklist where
  destination : Int
  blocklists : List (Str × Query)

/-- `DestinationBlocklist.as_combined_query` (lines 29-32):
`AndQuery([NotQuery(q) for q in self.blocklists.values()])`. -/
def DestinationBlocklist.as_combined_query (d : DestinationBlocklist) : Query :=
  mkAnd (d.blocklists.map (fun b => .notQ b.2))

/-! ### Spec-side definitions used to compare against the code (C3) -/

/-- Written from the spec's words: "two spans overlap iff they are in the
same `FieldLocation` and their half-open `[start, end)` ranges intersect" —
the ranges, as sets, have a common point: `max(start₁, start₂) <
min(end₁, end₂)`. -/
def specSpansIntersect (l1 l2 : MatchLocation) : Bool :=
  l1.field == l2.field &&
    decide (max l1.startPos l2.startPos < min l1.stopPos l2.stopPos)

/-- Written from the spec's words: "`Exception(w,e).matches(T)` iff there
exists a `w`-location in T that does not overlap any `e`-location", with
overlap as `specSpansIntersect`. -/
def specExceptMatches (w e : LocQuery) (T : QueryTarget) : Bool :=
  (matchLocations w T).any (fun l =>
    !((matchLocations e T).any (fun l2 => specSpansIntersect l l2)))

mutual

/-- A location query is non-degenerate when its word and phrase literals are
nonempty (prefix, suffix and embedded-asterisk matches always span at least
one running character; a single-part wildcard — unreachable from the parser —
must have a nonempty part). -/
def nonDeg : LocQuery → Bool
  | .word w _ => decide (w ≠ [])
  | .pfx _ _ => true
  | .sfx _ _ => true
  | .phrase p _ => decide (p ≠ [])
  | .wild parts _ =>
    match parts with
    | [p] => decide (p ≠ [])
    | _ => true
  | .locOr qs => nonDegList qs

def nonDegList : List LocQuery → Bool
  | [] => true
  | q :: qs => nonDeg q && nonDegList qs

end

/-! ### Concrete query-engine inputs for witnesses and counterexamples -/

def wid1 : SubmissionID := ⟨"fa", 101⟩

def wid2 : SubmissionID := ⟨"fa", 102⟩

def strL (s : String) : Str := s.data

/-- A target whose only text is the title "a  b" (two spaces). -/
def c3target : QueryTarget :=
  { sub_id := wid1
    title := [strL "a  b"]
    description := []
    keywords := []
    artist := []
    rating := .general }

def c3w : LocQuery := .phrase (strL "a  b") .anyField

/-- The empty phrase: `PhraseQuery("")`, whose regex produces zero-width
matches. -/
def c3e : LocQuery := .phrase [] .anyField

def c5foobar : QueryTarget :=
  { sub_id := wid1
    title := [strL "foobar"]
    description := []
    keywords := []
    artist := []
    rating := .general }

def c5foo : QueryTarget :=
  { sub_id := wid1
    title := [strL "foo"]
    description := []
    keywords := []
    artist := []
    rating := .general }

def c5desc : QueryTarget :=
  { sub_id := wid1
    title := []
    description := [strL "foobar"]
    keywords := []
    artist := []
    rating := .general }

/-! ### The query parser (`query_parser.py` lines 397-604)

The pyparsing grammar of `query_parser()` is translated as a two-phase
pipeline, mirroring the source: phase 1 is a recursive-descent parser (with
ordered choice matching the pyparsing `|` alternatives, optional elements and
iteration backtracking matching `Optional`/`ZeroOrMore`, leading-whitespace
skipping before every terminal, and maximal-munch `Word`s) producing a parse
tree; phase 2 is the `parse_expression`/`parse_element`/… conversion of that
tree into a `Query`, raising `InvalidQueryException` (`Except.error`) exactly
where the source does.  `parse_query` turns a phase-1 failure
(`ParseException`) into an error as the source does. -/

def skipWs (t : Str) (i : Nat) : Nat :=
  i + ((t.drop i).takeWhile (fun c => c = ' ' || c = '\t' || c = '\n')).length

/-- `pyparsing.printables`: ASCII 33–126. -/
def isPrintableChar (c : Char) : Bool :=
  33 ≤ c.toNat && c.toNat ≤ 126

/-- `valid_chars`: printables minus `(`, `)`, `:` and `"`. -/
def validWordChar (c : Char) : Bool :=
  isPrintableChar c && !(c ∈ ['(', ')', ':', '\"'])

/-- `Word(valid_chars)`: maximal nonempty run after whitespace skip. -/
def pWordTok (t : Str) (i : Nat) : Option (Str × Nat) :=
  let j := skipWs t i
  let run := (t.drop j).takeWhile validWordChar
  if run.isEmpty then none else some (run, j + run.length)

/-- `Literal(ch)`. -/
def pLitTok (ch : Char) (t : Str) (i : Nat) : Option Nat :=
  let j := skipWs t i
  if t.get? j = some ch then some (j + 1) else none

/-- pyparsing keyword identifier characters (alphanumerics plus `_$`). -/
def identChar (c : Char) : Bool :=
  c.isAlphanum || c = '_' || c = '$'

/-- `CaselessKeyword(k)` (`k` given lower-case): caseless match not adjacent
to identifier characters on either side. -/
def pKeywordTok (k : Str) (t : Str) (i : Nat) : Option Nat :=
  let j := skipWs t i
  if decide (j + k.length ≤ t.length) &&
      lowerStr ((t.drop j).take k.length) == k &&
      (match t.get? (j - 1) with
       | some c => decide (j = 0) || !identChar c
       | none => true) &&
      (match t.get? (j + k.length) with
       | some c => !identChar c
       | none => true) then
    some (j + k.length)
  else
    none

/-- Body of a `QuotedString('"', escChar="\\")` after the opening quote:
returns the unescaped content and the number of characters consumed
(including the closing quote); fails on a newline or a missing close. -/
def quotedBody : Str → Option (Str × Nat)
  | [] => none
  | c :: rest =>
    if c = '\"' then some ([], 1)
    else if c = '\n' then none
    else if c = '\\' then
      match rest with
      | [] => none
      | d :: rest2 => (quotedBody rest2).map (fun r => (d :: r.1, r.2 + 2))
    else
      (quotedBody rest).map (fun r => (c :: r.1, r.2 + 1))

/-- `QuotedString('"', escChar="\\")` (with unquoting). -/
def pQuotedTok (t : Str) (i : Nat) : Option (Str × Nat) :=
  let j := skipWs t i
  if t.get? j = some '\"' then
    (quotedBody (t.drop (j + 1))).map (fun r => (r.1, j + 1 + r.2))
  else
    none

/-- `exception_element := Group(quotes | words)`. -/
inductive PExcElem where
  | quotes (s : Str)
  | word (w : Str)

/-- `field_value := Group(quotes | "(" wwe ")" | wwe | words)`. -/
inductive PFieldVal where
  | quotes (s : Str)
  | wwe (w : Str) (exc : List PExcElem)
  | word (w : Str)

mutual

/-- `element := Group(quotes | brackets | field | word_with_exception |
words)`. -/
inductive PElem where
  | quotes (s : Str)
  | brackets (e : PExpr)
  | fieldE (name : Str) (value : PFieldVal)
  | wwe (w : Str) (exc : List PExcElem)
  | word (w : Str)

/-- `full_element := Group(negator + element)`; the negator group is kept
only as its truthiness. -/
inductive PFullElem where
  | mk (negated : Bool) (elem : PElem)

/-- `expr := full_element + ZeroOrMore(connector + full_element)`; each
connector is the canonical matched keyword, or `none` when the `Optional`
matched nothing. -/
inductive PExpr where
  | mk (head : PFullElem) (tail : List (Option Str × PFullElem))

end

/-- `exception_elem`. -/
def pExcElemTok (t : Str) (i : Nat) : Option (PExcElem × Nat) :=
  match pQuotedTok t i with
  | some (s, j) => some (.quotes s, j)
  | none =>
    match pWordTok t i with
    | some (w, j) => some (.word w, j)
    | none => none

/-- `ZeroOrMore(Optional(CaselessKeyword("or")) + exception_elem)`: each
iteration backtracks wholly on failure. -/
def pExcLoop (t : Str) : Nat → Nat → List PExcElem × Nat
  | 0, i => ([], i)
  | fuel + 1, i =>
    let i1 :=
      match pKeywordTok (strL "or") t i with
      | some j => j
      | none => i
    match pExcElemTok t i1 with
    | some (e, j) =>
      let r := pExcLoop t fuel j
      (e :: r.1, r.2)
    | none => ([], i)

/-- `exception := Group(exception_elem | ("(" + exception_elem +
ZeroOrMore(Optional("or") + exception_elem) + ")"))`. -/
def pExceptionTok (t : Str) (i : Nat) : Option (List PExcElem × Nat) :=
  match pExcElemTok t i with
  | some (e, j) => some ([e], j)
  | none =>
    match pLitTok '(' t i with
    | none => none
    | some j1 =>
      match pExcElemTok t j1 with
      | none => none
      | some (e0, j2) =>
        let r := pExcLoop t (t.length + 1) j2
        match pLitTok ')' t r.2 with
        | some j4 => some (e0 :: r.1, j4)
        | none => none

/-- `word_with_exception := exception_word + ("except"|"ignore") +
exception`. -/
def pWWETok (t : Str) (i : Nat) : Option ((Str × List PExcElem) × Nat) :=
  match pWordTok t i with
  | none => none
  | some (w, j) =>
    let jc :=
      match pKeywordTok (strL "except") t j with
      | some j2 => some j2
      | none => pKeywordTok (strL "ignore") t j
    match jc with
    | none => none
    | some j2 =>
      match pExceptionTok t j2 with
      | none => none
      | some (es, j3) => some ((w, es), j3)

/-- `field_name := Group(("@" + Word) | (Word + ":"))`. -/
def pFieldNameTok (t : Str) (i : Nat) : Option (Str × Nat) :=
  match pLitTok '@' t i with
  | some j => pWordTok t j
  | none =>
    match pWordTok t i with
    | none => none
    | some (w, j) =>
      match pLitTok ':' t j with
      | some j2 => some (w, j2)
      | none => none

/-- `field_value`. -/
def pFieldValTok (t : Str) (i : Nat) : Option (PFieldVal × Nat) :=
  ((pQuotedTok t i).map (fun r => (PFieldVal.quotes r.1, r.2))) <|>
    (do
      let j1 ← pLitTok '(' t i
      let we ← pWWETok t j1
      let j3 ← pLitTok ')' t we.2
      pure (PFieldVal.wwe we.1.1 we.1.2, j3)) <|>
    ((pWWETok t i).map (fun r => (PFieldVal.wwe r.1.1 r.1.2, r.2))) <|>
    ((pWordTok t i).map (fun r => (PFieldVal.word r.1, r.2)))

/-- `negator := Optional("!" | "-" | CaselessKeyword("not"))`. -/
def pNegatorTok (t : Str) (i : Nat) : Bool × Nat :=
  match pLitTok '!' t i with
  | some j => (true, j)
  | none =>
    match pLitTok '-' t i with
    | some j => (true, j)
    | none =>
      match pKeywordTok (strL "not") t i with
      | some j => (true, j)
      | none => (false, i)

/-- `connector := Group(Optional(CaselessKeyword("or") |
CaselessKeyword("and")))`, as the canonical matched keyword. -/
def pConnectorTok (t : Str) (i : Nat) : Option Str × Nat :=
  match pKeywordTok (strL "or") t i with
  | some j => (some (strL "or"), j)
  | none =>
    match pKeywordTok (strL "and") t i with
    | some j => (some (strL "and"), j)
    | none => (none, i)

/-- The recursive nonterminals `element`, `full_element`,
`ZeroOrMore(connector + full_element)` and `expr`, built level by level on a
fuel so that the definition is structurally recursive: level `fuel + 1` of
each nonterminal uses level `fuel` of the others (a bracketed `expr` inside
an `element`, the `element` of a `full_element`, the `full_element`s of an
`expr` and of its tail loop). -/
def pGrammar (t : Str) : Nat →
    (Nat → Option (PElem × Nat)) × (Nat → Option (PFullElem × Nat)) ×
      (Nat → List (Option Str × PFullElem) × Nat) × (Nat → Option (PExpr × Nat))
  | 0 => (fun _ => none, fun _ => none, fun i => ([], i), fun _ => none)
  | fuel + 1 =>
    let prev := pGrammar t fuel
    let pElemF : Nat → Option (PElem × Nat) := fun i =>
      ((pQuotedTok t i).map (fun r => (PElem.quotes r.1, r.2))) <|>
        (do
          let j1 ← pLitTok '(' t i
          let e ← prev.2.2.2 j1
          let j3 ← pLitTok ')' t e.2
          pure (PElem.brackets e.1, j3)) <|>
        (do
          let n ← pFieldNameTok t i
          let v ← pFieldValTok t n.2
          pure (PElem.fieldE n.1 v.1, v.2)) <|>
        (do
          let we ← pWWETok t i
          pure (PElem.wwe we.1.1 we.1.2, we.2)) <|>
        (do
          let w ← pWordTok t i
          pure (PElem.word w.1, w.2))
    let pFullF : Nat → Option (PFullElem × Nat) := fun i =>
      let n := pNegatorTok t i
      match prev.1 n.2 with
      | some (e, j2) => some (.mk n.1 e, j2)
      | none => none
    let pTailF : Nat → List (Option Str × PFullElem) × Nat := fun i =>
      let c := pConnectorTok t i
      match prev.2.1 c.2 with
      | some (fe, j2) =>
        let r := prev.2.2.1 j2
        ((c.1, fe) :: r.1, r.2)
      | none => ([], i)
    let pExprF : Nat → Option (PExpr × Nat) := fun i =>
      match prev.2.1 i with
      | some (fe, j) =>
        let r := prev.2.2.1 j
        some (.mk fe r.1, r.2)
      | none => none
    (pElemF, pFullF, pTailF, pExprF)

/-- `element`. -/
def pElement (t : Str) (fuel i : Nat) : Option (PElem × Nat) :=
  (pGrammar t fuel).1 i

/-- `full_element := negator + element` (pyparsing does not backtrack out of
a matched `Optional`). -/
def pFullElem (t : Str) (fuel i : Nat) : Option (PFullElem × Nat) :=
  (pGrammar t fuel).2.1 i

/-- `ZeroOrMore(connector + full_element)` with per-iteration backtracking. -/
def pExprTail (t : Str) (fuel i : Nat) : List (Option Str × PFullElem) × Nat :=
  (pGrammar t fuel).2.2.1 i

/-- `expr`. -/
def pExpr (t : Str) (fuel i : Nat) : Option (PExpr × Nat) :=
  (pGrammar t fuel).2.2.2 i

/-- Phase 1 with `parseAll=True`: the whole string (up to trailing
whitespace) must be consumed. -/
def parseQueryRaw (t : Str) : Option PExpr :=
  match pExpr t (4 * t.length + 8) 0 with
  | some (e, j) => if skipWs t j == t.length then some e else none
  | none => none

/-! ### Phase 2: conversion to `Query` (`parse_expression` … `parse_word`) -/

/-- `reserved_keywords` of `parse_word`. -/
def reservedKeywords : List Str :=
  [strL "not", strL "and", strL "or", strL "except", strL "ignore"]

/-- `re.split(r"\*+", word)`. -/
def splitAsterisks (w : Str) : List Str :=
  splitOn (fun c => c = '*') w

/-- `parse_word` (lines 570-584): leading/trailing single asterisk makes a
suffix/prefix query, inner asterisks make the embedded-asterisk regex query,
a bare reserved keyword is an `InvalidQueryException`, anything else a
`WordQuery`. -/
def parse_word (word : Str) (field : FieldSel) : Except String LocQuery :=
  if word.head? = some '*' && !(word.tail.contains '*') then
    .ok (.sfx word.tail field)
  else if word.getLast? = some '*' && !(word.dropLast.contains '*') then
    .ok (.pfx word.dropLast field)
  else if word.contains '*' then
    .ok (.wild (splitAsterisks word) field)
  else if reservedKeywords.contains (lowerStr word) then
    .error "Word query cannot be a reserved keyword"
  else
    .ok (.word word field)

/-- `parse_quotes` (lines 526-527). -/
def parse_quotes (phrase : Str) (field : FieldSel) : LocQuery :=
  .phrase phrase field

/-- `rating_dict` (lines 35-42); lookup is case-sensitive as in the source. -/
def ratingDict (w : Str) : Option Rating :=
  if w == strL "general" || w == strL "safe" then some .general
  else if w == strL "mature" || w == strL "questionable" then some .mature
  else if w == strL "adult" || w == strL "explicit" then some .adult
  else none

/-- `parse_field_name` (lines 557-567). -/
def parse_field_name (name : Str) : Except String FieldSel :=
  let l := lowerStr name
  if l == strL "title" then .ok .title
  else if l == strL "desc" || l == strL "description" || l == strL "message" then
    .ok .description
  else if l == strL "keywords" || l == strL "keyword" || l == strL "tag" ||
      l == strL "tags" then
    .ok .keyword
  else if l == strL "artist" || l == strL "author" || l == strL "poster" ||
      l == strL "lower" || l == strL "uploader" then
    .ok .artist
  else
    .error "Unrecognised field name"

/-- `parse_exception` (lines 587-598) element loop. -/
def parse_exception_elems (field : FieldSel) :
    List PExcElem → Except String (List LocQuery)
  | [] => .ok []
  | e :: es => do
    let q ←
      match e with
      | .quotes s => .ok (parse_quotes s field)
      | .word w => parse_word w field
    let rest ← parse_exception_elems field es
    .ok (q :: rest)

/-- `parse_exception`: elements joined by a `LocationOrQuery`. -/
def parse_exception (elems : List PExcElem) (field : FieldSel) :
    Except String LocQuery :=
  (parse_exception_elems field elems).map mkLocOr

/-- `parse_word_with_exception` (lines 601-604). -/
def parse_word_with_exception (w : Str) (exc : List PExcElem)
    (field : FieldSel) : Except String Query := do
  let wq ← parse_word w field
  let excq ← parse_exception exc field
  .ok (.exceptQ wq excq)

/-- `parse_rating_field` (lines 546-554): quotes are rejected; a
`word_with_exception` value leaves `field_value.word` empty so the lookup
also fails. -/
def parse_rating_field (v : PFieldVal) : Except String Query :=
  match v with
  | .quotes _ => .error "Rating field cannot be a quote"
  | .wwe _ _ => .error "Unrecognised rating field value"
  | .word w =>
    match ratingDict w with
    | some r => .ok (.ratingQ r)
    | none => .error "Unrecognised rating field value"

/-- `parse_field` (lines 530-543). -/
def parse_field (name : Str) (v : PFieldVal) : Except String Query :=
  if lowerStr name == strL "rating" then parse_rating_field v
  else do
    let f ← parse_field_name name
    match v with
    | .quotes s => .ok (.locQ (parse_quotes s f))
    | .wwe w es => parse_word_with_exception w es f
    | .word w => (parse_word w f).map .locQ

/-- `parse_connector` (lines 494-502). -/
def parse_connector (conn : Option Str) (q1 q2 : Query) :
    Except String Query :=
  match conn with
  | none => .ok (mkAnd [q1, q2])
  | some c =>
    if lowerStr c == strL "and" then .ok (mkAnd [q1, q2])
    else if lowerStr c == strL "or" then .ok (mkOr [q1, q2])
    else .error "I do not recognise this connector"

mutual

/-- `parse_expression` (lines 484-491): left fold over the connectors. -/
def parse_expression : PExpr → Except String Query
  | .mk head tail => do
    let q0 ← parse_full_element head
    parse_expr_tail q0 tail

def parse_expr_tail (acc : Query) :
    List (Option Str × PFullElem) → Except String Query
  | [] => .ok acc
  | (conn, fe) :: rest => do
    let q ← parse_full_element fe
    let combined ← parse_connector conn acc q
    parse_expr_tail combined rest

/-- `parse_full_element` (lines 505-508). -/
def parse_full_element : PFullElem → Except String Query
  | .mk neg e => do
    let q ← parse_elementT e
    .ok (if neg then .notQ q else q)

/-- `parse_element` (lines 511-523). -/
def parse_elementT : PElem → Except String Query
  | .quotes s => .ok (.locQ (parse_quotes s .anyField))
  | .brackets ex => parse_expression ex
  | .fieldE n v => parse_field n v
  | .wwe w es => parse_word_with_exception w es .anyField
  | .word w => (parse_word w .anyField).map .locQ

end

/-- `parse_query` (lines 471-481): a grammar failure (`ParseException`)
becomes an `InvalidQueryException`, a successful parse is converted. -/
def parse_query (q : Str) : Except String Query :=
  match parseQueryRaw q with
  | none => .error "ParseException was thrown"
  | some tree => parse_expression tree

/-! ### Case variants of reserved words -/

/-- The upper-case ASCII letter above `d`. -/
def upperOf (d : Char) : Char :=
  Char.ofNat (d.toNat - 32)

/-- All strings whose character-wise `Char.toLower` image is the given
string. -/
def caseVariants : Str → List Str
  | [] => [[]]
  | d :: ds =>
    (caseVariants ds).map (d :: ·) ++ (caseVariants ds).map (upperOf d :: ·)

/-- Did `parse_query` raise (`InvalidQueryException`, whether from a grammar
failure or from conversion)? -/
def isErr (r : Except String Query) : Bool :=
  match r with
  | .error _ => true
  | .ok _ => false

/-- Is the parse result exactly `PhraseQuery(s)` on the default `AnyField`? -/
def isPhraseOk (r : Except String Query) (s : Str) : Bool :=
  match r with
  | .ok (.locQ (.phrase p f)) => p == s && decide (f = FieldSel.anyField)
  | _ => false

/-- Target with description "the cat and the catfish". -/
def c3target2 : QueryTarget :=
  { sub_id := wid1
    title := []
    description := [strL "the cat and the catfish"]
    keywords := []
    artist := []
    rating := .general }

def c8sub : Subscription :=
  { query_str := strL "cat"
    query := .locQ (.word (strL "cat") .anyField)
    destination := 1 }

def c8subPaused : Subscription :=
  { c8sub with paused := true }

def c8block : Query :=
  .notQ (.locQ (.word (strL "dog") .anyField))

/-! ### Concrete pools used by witnesses and counterexamples -/

/-- An empty pool with the default `max_ready_for_upload = 100`. -/
def poolEmpty : WaitPool := {}

def poolA : WaitPool := poolEmpty.add_sub_id wid1

def poolB : WaitPool := (poolA.set_fetched_data wid1 7 [3]).getD poolEmpty

def poolC : WaitPool := poolB.set_cached wid1 9

/-- The pool obtained from `poolB` by `revert_data_fetch` — the id keeps its
`active_states` entry although its `full_data` has been reset to `None`. -/
def poolR : WaitPool :=
  match poolB.revert_data_fetch wid1 with
  | .ok q => q
  | .error _ => poolB

/-- The state that `pop_next_ready_to_send` returns on `poolC`. -/
def c2state : SubmissionCheckState :=
  { sub_id := wid1
    full_data := some 7
    matching_subscriptions := some [3]
    cache_entry := some 9 }

/-- The pool left behind by `pop_next_ready_to_send` on `poolC`. -/
def c2pool' : WaitPool :=
  { heap := [c2state]
    fetch_data_queue := { newQ := [wid1] } }

/-- An empty pool whose backpressure limit is zero. -/
def pool0 : WaitPool := { max_ready_for_upload := 0 }

def pool0A : WaitPool := pool0.add_sub_id wid1

/-- `pool0` after fetching data for `wid1`: one active state, so
`size_active > max_ready_for_upload`. -/
def pool0B : WaitPool := (pool0A.set_fetched_data wid1 7 [3]).getD pool0

/-- `poolEmpty` after `revert_data_fetch` of an id it does not track. -/
def poolRev0 : WaitPool :=
  match poolEmpty.revert_data_fetch wid1 with
  | .ok q => q
  | .error _ => poolEmpty

/-- The state object stored for `wid1` in `poolB`. -/
def poolBstate : SubmissionCheckState :=
  { sub_id := wid1
    full_data := some 7
    matching_subscriptions := some [3] }

/-! ### Dictionary lemmas -/

theorem dictFind_cons {b : SubmissionID × Addr} {d : SubDict} {k : SubmissionID} :
    dictFind (b :: d) k = if b.1 = k then some b.2 else dictFind d k := by
  by_cases h : b.1 = k
  · rw [if_pos h]
    unfold dictFind
    rw [List.find?_cons_of_pos _ (by simpa using h)]
    rfl
  · rw [if_neg h]
    unfold dictFind
    rw [List.find?_cons_of_neg _ (by simpa using h)]

theorem dictErase_cons {b : SubmissionID × Addr} {d : SubDict} {k : SubmissionID} :
    dictErase (b :: d) k =
      if b.1 = k then dictErase d k else b :: dictErase d k := by
  by_cases h : b.1 = k
  · rw [if_pos h]
    unfold dictErase
    rw [List.filter_cons_of_neg (by simpa using h)]
  · rw [if_neg h]
    unfold dictErase
    rw [List.filter_cons_of_pos (by simpa using h)]

theorem dictFind_mem {d : SubDict} {k : SubmissionID} {a : Addr}
    (h : dictFind d k = some a) : (k, a) ∈ d := by
  induction d with
  | nil => cases h
  | cons b d ih =>
    rw [dictFind_cons] at h
    by_cases hb : b.1 = k
    · rw [if_pos hb] at h
      obtain ⟨b1, b2⟩ := b
      obtain rfl : b2 = a := by simpa using h
      obtain rfl : b1 = k := hb
      exact List.mem_cons_self _ _
    · rw [if_neg hb] at h
      exact List.mem_cons_of_mem _ (ih h)

theorem dictFind_eq_none {d : SubDict} {k : SubmissionID}
    (h : dictFind d k = none) : ∀ b ∈ d, b.1 ≠ k := by
  unfold dictFind at h
  cases hf : d.find? (fun b => b.1 = k) with
  | none =>
    intro b hb
    have := List.find?_eq_none.mp hf b hb
    simpa using this
  | some b => simp [hf] at h

theorem dictFind_isSome_of_mem {d : SubDict} {k : SubmissionID} {a : Addr}
    (h : (k, a) ∈ d) : (dictFind d k).isSome := by
  cases hf : dictFind d k with
  | some x => simp
  | none => exact absurd rfl (dictFind_eq_none hf (k, a) h)

theorem dictFind_of_mem_nodup {d : SubDict} {k : SubmissionID} {a : Addr}
    (hnd : (d.map Prod.fst).Nodup) (h : (k, a) ∈ d) : dictFind d k = some a := by
  induction d with
  | nil => cases h
  | cons b d ih =>
    simp only [List.map_cons, List.nodup_cons, List.mem_map] at hnd
    rcases List.mem_cons.mp h with rfl | hmem
    · simp [dictFind, List.find?_cons]
    · have hne : b.1 ≠ k := by
        intro he
        exact hnd.1 ⟨(k, a), hmem, he.symm⟩
      rw [dictFind_cons, if_neg hne]
      exact ih hnd.2 hmem

theorem mem_dictInsert {d : SubDict} {k : SubmissionID} {a : Addr}
    {b : SubmissionID × Addr} :
    b ∈ dictInsert d k a ↔ (b ∈ d ∧ b.1 ≠ k) ∨ b = (k, a) := by
  simp [dictInsert, List.mem_filter, and_comm]

theorem dictFind_dictInsert_self {d : SubDict} {k : SubmissionID} {a : Addr} :
    dictFind (dictInsert d k a) k = some a := by
  unfold dictFind dictInsert
  rw [List.find?_append]
  cases hf : d.filter (fun b => b.1 ≠ k) |>.find? (fun b => b.1 = k) with
  | none => simp
  | some b =>
    have hb := List.mem_of_find?_eq_some hf
    have hp := List.find?_some hf
    have := (List.mem_filter.mp hb).2
    simp only [decide_eq_true_eq] at hp
    simp [hp] at this

theorem dictFind_dictErase_ne {d : SubDict} {k k' : SubmissionID}
    (h : k' ≠ k) : dictFind (dictErase d k) k' = dictFind d k' := by
  induction d with
  | nil => rfl
  | cons b d ih =>
    rw [dictErase_cons]
    by_cases hb : b.1 = k
    · rw [if_pos hb, dictFind_cons, if_neg (by rw [hb]; exact Ne.symm h)]
      exact ih
    · rw [if_neg hb, dictFind_cons, dictFind_cons]
      by_cases hb' : b.1 = k'
      · rw [if_pos hb', if_pos hb']
      · rw [if_neg hb', if_neg hb']
        exact ih

theorem dictFind_dictInsert_ne {d : SubDict} {k k' : SubmissionID} {a : Addr}
    (h : k' ≠ k) : dictFind (dictInsert d k a) k' = dictFind d k' := by
  have hins : dictInsert d k a = dictErase d k ++ [(k, a)] := rfl
  rw [hins]
  unfold dictFind
  rw [List.find?_append]
  have h2 : List.find? (fun b => decide (b.1 = k')) [(k, a)] = none := by
    simp [List.find?, Ne.symm h]
  rw [h2, Option.or_none]
  exact dictFind_dictErase_ne h

theorem mem_dictErase {d : SubDict} {k : SubmissionID} {b : SubmissionID × Addr} :
    b ∈ dictErase d k ↔ b ∈ d ∧ b.1 ≠ k := by
  simp [dictErase, List.mem_filter]

theorem dictFind_dictErase_self {d : SubDict} {k : SubmissionID} :
    dictFind (dictErase d k) k = none := by
  induction d with
  | nil => rfl
  | cons b d ih =>
    rw [dictErase_cons]
    by_cases hb : b.1 = k
    · rw [if_pos hb]
      exact ih
    · rw [if_neg hb, dictFind_cons, if_neg hb]
      exact ih

theorem nodup_dictErase {d : SubDict} {k : SubmissionID}
    (h : (d.map Prod.fst).Nodup) :
    ((dictErase d k).map Prod.fst).Nodup :=
  h.sublist (List.Sublist.map Prod.fst (List.filter_sublist d))

theorem nodup_dictInsert {d : SubDict} {k : SubmissionID} {a : Addr}
    (h : (d.map Prod.fst).Nodup) :
    ((dictInsert d k a).map Prod.fst).Nodup := by
  have hins : dictInsert d k a = dictErase d k ++ [(k, a)] := rfl
  rw [hins, List.map_append, List.nodup_append]
  refine ⟨nodup_dictErase h, by simp, ?_⟩
  intro x hx
  simp only [List.mem_map] at hx
  obtain ⟨b, hb, rfl⟩ := hx
  have := (mem_dictErase.mp hb).2
  simpa using this

theorem lt_length_of_get?_eq_some {l : List SubmissionCheckState} {a : Addr}
    {s : SubmissionCheckState} (h : l.get? a = some s) : a < l.length := by
  by_contra hc
  rw [List.get?_eq_none.mpr (Nat.le_of_not_lt hc)] at h
  cases h

/-! ### Invariant preservation, operation by operation -/

theorem wf_heapModify {p : WaitPool} {a : Addr}
    {f : SubmissionCheckState → SubmissionCheckState}
    (hsub : ∀ s, (f s).sub_id = s.sub_id)
    (hfd : ∀ s, (f s).full_data = s.full_data)
    (h : WfPool p) : WfPool (p.heapModify a f) := by
  unfold WaitPool.heapModify
  cases hg : p.heap.get? a with
  | none => exact h
  | some s =>
    obtain ⟨⟨hAS, hIff⟩, hSub, hAct, hnd1, hnd2⟩ := h
    have hlt : a < p.heap.length := lt_length_of_get?_eq_some hg
    have hget : ∀ b : Addr, (p.heap.set a (f s)).get? b =
        if b = a then some (f s) else p.heap.get? b := by
      intro b
      by_cases hb : b = a
      · rw [if_pos hb, hb, List.get?_set_eq_of_lt _ hlt]
      · rw [if_neg hb, List.get?_set_ne _ _ (Ne.symm hb)]
    refine ⟨⟨hAS, ?_⟩, ?_, ?_, hnd1, hnd2⟩
    · intro b hb
      rw [hget b.2]
      by_cases hba : b.2 = a
      · rw [if_pos hba]
        have := hIff b hb
        rw [hba, hg] at this
        simpa [hfd s] using this
      · rw [if_neg hba]
        exact hIff b hb
    · intro b hb
      rw [hget b.2]
      by_cases hba : b.2 = a
      · rw [if_pos hba]
        have := hSub b hb
        rw [hba, hg] at this
        simpa [hsub s] using this
      · rw [if_neg hba]
        exact hSub b hb
    · intro b hb
      rw [hget b.2]
      by_cases hba : b.2 = a
      · rw [if_pos hba]
        have := hAct b hb
        rw [hba, hg] at this
        simpa [hsub s] using this
      · rw [if_neg hba]
        exact hAct b hb

theorem wf_set_downloaded (p : WaitPool) (id : SubmissionID) (dl : Nat)
    (h : WfPool p) : WfPool (p.set_downloaded id dl) := by
  unfold WaitPool.set_downloaded
  cases dictFind p.submission_state id with
  | none => exact h
  | some a => exact wf_heapModify (fun _ => rfl) (fun _ => rfl) h

theorem wf_set_cached (p : WaitPool) (id : SubmissionID) (ce : Nat)
    (h : WfPool p) : WfPool (p.set_cached id ce) := by
  unfold WaitPool.set_cached
  cases dictFind p.submission_state id with
  | none => exact h
  | some a => exact wf_heapModify (fun _ => rfl) (fun _ => rfl) h

theorem wf_set_uploaded (p : WaitPool) (id : SubmissionID) (um : Nat)
    (h : WfPool p) : WfPool (p.set_uploaded id um) := by
  unfold WaitPool.set_uploaded
  cases dictFind p.submission_state id with
  | none => exact h
  | some a => exact wf_heapModify (fun _ => rfl) (fun _ => rfl) h

theorem wf_add_sub_id (p : WaitPool) (id : SubmissionID)
    (hna : dictFind p.active_states id = none) (h : WfPool p) :
    WfPool (p.add_sub_id id) := by
  obtain ⟨⟨hAS, hIff⟩, hSub, hAct, hnd1, hnd2⟩ := h
  unfold WaitPool.add_sub_id
  have hget : ∀ b : Addr, b < p.heap.length →
      (p.heap ++ [initState id]).get? b = p.heap.get? b := by
    intro b hb
    exact List.get?_append hb
  have hlt : ∀ b ∈ p.submission_state, b.2 < p.heap.length := by
    intro b hb
    have := hSub b hb
    obtain ⟨s, hs, -⟩ := Option.map_eq_some'.mp this
    exact lt_length_of_get?_eq_some hs
  have hltA : ∀ b ∈ p.active_states, b.2 < p.heap.length := by
    intro b hb
    have := hAct b hb
    obtain ⟨s, hs, -⟩ := Option.map_eq_some'.mp this
    exact lt_length_of_get?_eq_some hs
  refine ⟨⟨?_, ?_⟩, ?_, ?_, nodup_dictInsert hnd1, hnd2⟩
  · intro b hb
    have hbne : b.1 ≠ id := by
      intro he
      obtain ⟨k, a⟩ := b
      have := dictFind_isSome_of_mem hb
      rw [show k = id from he, hna] at this
      cases this
    rw [dictFind_dictInsert_ne hbne]
    exact hAS b hb
  · intro b hb
    rcases mem_dictInsert.mp hb with ⟨hmem, hne⟩ | rfl
    · rw [hget b.2 (hlt b hmem)]
      exact hIff b hmem
    · rw [List.get?_concat_length]
      simp [hna, initState]
  · intro b hb
    rcases mem_dictInsert.mp hb with ⟨hmem, hne⟩ | rfl
    · rw [hget b.2 (hlt b hmem)]
      exact hSub b hmem
    · rw [List.get?_concat_length]
      rfl
  · intro b hb
    rw [hget b.2 (hltA b hb)]
    exact hAct b hb

theorem wf_set_fetched_data {p p' : WaitPool} {id : SubmissionID} {d : Nat}
    {subs : List Nat} (hs : p.set_fetched_data id d subs = some p')
    (h : WfPool p) : WfPool p' := by
  unfold WaitPool.set_fetched_data at hs
  by_cases hgate : (dictFind p.active_states id).isNone ∧
      p.size_active > p.max_ready_for_upload
  · rw [if_pos hgate] at hs
    cases hs
  · rw [if_neg hgate] at hs
    cases hf : dictFind p.submission_state id with
    | none =>
      simp only [hf, Option.some.injEq] at hs
      obtain rfl : p = p' := hs
      exact h
    | some a =>
      simp only [hf, Option.some.injEq] at hs
      obtain ⟨⟨hAS, hIff⟩, hSub, hAct, hnd1, hnd2⟩ := h
      have hmemb : (id, a) ∈ p.submission_state := dictFind_mem hf
      obtain ⟨s, hg, hsid⟩ := Option.map_eq_some'.mp (hSub (id, a) hmemb)
      have hlt : a < p.heap.length := lt_length_of_get?_eq_some hg
      simp only [WaitPool.heapModify, hg] at hs
      obtain rfl := hs
      set s2 : SubmissionCheckState :=
        { s with
          full_data := some d
          matching_subscriptions := some subs } with hs2
      have hkey : ∀ b ∈ p.submission_state, b.2 = a → b.1 = id := by
        intro b hb hba
        have := hSub b hb
        rw [hba, hg] at this
        have h2 : s.sub_id = b.1 := by simpa using this
        rw [← h2, hsid]
      have hget : ∀ b : Addr, b ≠ a →
          (p.heap.set a s2).get? b = p.heap.get? b := by
        intro b hb
        rw [List.get?_set_ne _ _ (Ne.symm hb)]
      have hgeta : (p.heap.set a s2).get? a = some s2 :=
        List.get?_set_eq_of_lt _ hlt
      refine ⟨⟨?_, ?_⟩, ?_, ?_, hnd1, nodup_dictInsert hnd2⟩
      · intro b hb
        rcases mem_dictInsert.mp hb with ⟨hmem, hne⟩ | rfl
        · exact hAS b hmem
        · exact hf
      · intro b hb
        by_cases hbid : b.1 = id
        · have hba : b.2 = a := by
            have := dictFind_of_mem_nodup hnd1 (show (b.1, b.2) ∈ p.submission_state by
              obtain ⟨k, x⟩ := b
              exact hb)
            rw [hbid, hf] at this
            exact (Option.some.inj this).symm
          rw [hbid, dictFind_dictInsert_self, hba, hgeta]
          rfl
        · have hba : b.2 ≠ a := fun he => hbid (hkey b hb he)
          rw [dictFind_dictInsert_ne hbid, hget b.2 hba]
          exact hIff b hb
      · intro b hb
        by_cases hba : b.2 = a
        · have hbid : b.1 = id := hkey b hb hba
          rw [hba, hgeta, hbid]
          simpa using hsid
        · rw [hget b.2 hba]
          exact hSub b hb
      · intro b hb
        rcases mem_dictInsert.mp hb with ⟨hmem, hne⟩ | rfl
        · have hba : b.2 ≠ a := by
            intro he
            have := hAct b hmem
            rw [he, hg] at this
            have h2 : s.sub_id = b.1 := by simpa using this
            exact hne (by rw [← h2, hsid])
          rw [hget b.2 hba]
          exact hAct b hmem
        · rw [hgeta]
          simpa using hsid

theorem wf_pop {p p' : WaitPool} {r : Option (Addr × SubmissionCheckState)}
    (hs : p.pop_next_ready_to_send = .ok (r, p')) (h : WfPool p) : WfPool p' := by
  unfold WaitPool.pop_next_ready_to_send at hs
  cases hm : WaitPool.pyMin p.subStateValues with
  | none =>
    simp only [hm, Except.ok.injEq, Prod.mk.injEq] at hs
    obtain ⟨rfl, rfl⟩ := hs
    exact h
  | some v =>
    obtain ⟨a, s⟩ := v
    simp only [hm] at hs
    by_cases hr : s.is_ready_to_send
    · rw [if_neg (by simp [hr])] at hs
      by_cases hn : (dictFind p.active_states s.sub_id).isNone
      · rw [if_pos hn] at hs
        cases hs
      · rw [if_neg hn] at hs
        simp only [Except.ok.injEq, Prod.mk.injEq] at hs
        obtain ⟨rfl, rfl⟩ := hs
        obtain ⟨⟨hAS, hIff⟩, hSub, hAct, hnd1, hnd2⟩ := h
        refine ⟨⟨?_, ?_⟩, ?_, ?_, nodup_dictErase hnd1, nodup_dictErase hnd2⟩
        · intro b hb
          obtain ⟨hmem, hne⟩ := mem_dictErase.mp hb
          rw [dictFind_dictErase_ne hne]
          exact hAS b hmem
        · intro b hb
          obtain ⟨hmem, hne⟩ := mem_dictErase.mp hb
          rw [dictFind_dictErase_ne hne]
          exact hIff b hmem
        · intro b hb
          exact hSub b (mem_dictErase.mp hb).1
        · intro b hb
          exact hAct b (mem_dictErase.mp hb).1
    · have hx : s.is_ready_to_send = false := Bool.eq_false_iff.mpr hr
      rw [if_pos (by rw [hx]; rfl)] at hs
      simp only [Except.ok.injEq, Prod.mk.injEq] at hs
      obtain ⟨rfl, rfl⟩ := hs
      exact h

theorem wf_return_populated {p : WaitPool} {a : Addr} {s : SubmissionCheckState}
    (hg : p.heap.get? a = some s)
    (hn1 : dictFind p.submission_state s.sub_id = none)
    (hn2 : dictFind p.active_states s.sub_id = none)
    (h : WfPool p) : WfPool (p.return_populated_state a) := by
  obtain ⟨⟨hAS, hIff⟩, hSub, hAct, hnd1, hnd2⟩ := h
  unfold WaitPool.return_populated_state
  simp only [hg]
  have hnotin : ∀ b ∈ p.submission_state, b.1 ≠ s.sub_id := dictFind_eq_none hn1
  have hnotinA : ∀ b ∈ p.active_states, b.1 ≠ s.sub_id := dictFind_eq_none hn2
  by_cases hfd : s.full_data.isSome
  · rw [if_pos hfd]
    refine ⟨⟨?_, ?_⟩, ?_, ?_, nodup_dictInsert hnd1, nodup_dictInsert hnd2⟩
    · intro b hb
      rcases mem_dictInsert.mp hb with ⟨hmem, hne⟩ | rfl
      · rw [dictFind_dictInsert_ne hne]
        exact hAS b hmem
      · exact dictFind_dictInsert_self
    · intro b hb
      rcases mem_dictInsert.mp hb with ⟨hmem, hne⟩ | rfl
      · rw [dictFind_dictInsert_ne hne]
        exact hIff b hmem
      · rw [dictFind_dictInsert_self, hg]
        simpa using hfd
    · intro b hb
      rcases mem_dictInsert.mp hb with ⟨hmem, hne⟩ | rfl
      · exact hSub b hmem
      · rw [hg]
        rfl
    · intro b hb
      rcases mem_dictInsert.mp hb with ⟨hmem, hne⟩ | rfl
      · exact hAct b hmem
      · rw [hg]
        rfl
  · rw [if_neg hfd]
    refine ⟨⟨?_, ?_⟩, ?_, ?_, nodup_dictInsert hnd1, hnd2⟩
    · intro b hb
      have hne : b.1 ≠ s.sub_id := hnotinA b hb
      rw [dictFind_dictInsert_ne hne]
      exact hAS b hb
    · intro b hb
      rcases mem_dictInsert.mp hb with ⟨hmem, hne⟩ | rfl
      · exact hIff b hmem
      · rw [hn2, hg]
        simpa using hfd
    · intro b hb
      rcases mem_dictInsert.mp hb with ⟨hmem, hne⟩ | rfl
      · exact hSub b hmem
      · rw [hg]
        rfl
    · intro b hb
      exact hAct b hb

/-! ### Properties of the minimum-key selection -/

theorem pyMin_foldl_aux (xs : List (Addr × SubmissionCheckState)) :
    ∀ acc : Addr × SubmissionCheckState,
      (xs.foldl (fun m s => if s.2.key < m.2.key then s else m) acc = acc ∨
        xs.foldl (fun m s => if s.2.key < m.2.key then s else m) acc ∈ xs) ∧
      (xs.foldl (fun m s => if s.2.key < m.2.key then s else m) acc).2.key ≤
        acc.2.key ∧
      ∀ x ∈ xs,
        (xs.foldl (fun m s => if s.2.key < m.2.key then s else m) acc).2.key ≤
          x.2.key := by
  induction xs with
  | nil =>
    intro acc
    exact ⟨Or.inl rfl, le_refl _, by intro x hx; cases hx⟩
  | cons y ys ih =>
    intro acc
    rw [List.foldl_cons]
    obtain ⟨hmem, hle, hall⟩ := ih (if y.2.key < acc.2.key then y else acc)
    have hacc1 : (if y.2.key < acc.2.key then y else acc).2.key ≤ acc.2.key := by
      split_ifs with h
      · exact le_of_lt h
      · exact le_refl _
    have hacc2 : (if y.2.key < acc.2.key then y else acc).2.key ≤ y.2.key := by
      split_ifs with h
      · exact le_refl _
      · exact le_of_not_lt h
    refine ⟨?_, le_trans hle hacc1, ?_⟩
    · rcases hmem with he | hm
      · rw [he]
        split_ifs with h
        · exact Or.inr (List.mem_cons_self _ _)
        · exact Or.inl rfl
      · exact Or.inr (List.mem_cons_of_mem _ hm)
    · intro x hx
      rcases List.mem_cons.mp hx with rfl | hx'
      · exact le_trans hle hacc2
      · exact hall x hx'

theorem pyMin_spec {l : List (Addr × SubmissionCheckState)}
    {v : Addr × SubmissionCheckState} (h : WaitPool.pyMin l = some v) :
    v ∈ l ∧ ∀ x ∈ l, v.2.key ≤ x.2.key := by
  cases l with
  | nil => cases h
  | cons x xs =>
    obtain rfl :
        xs.foldl (fun m s => if s.2.key < m.2.key then s else m) x = v :=
      Option.some.inj h
    obtain ⟨hmem, hle, hall⟩ := pyMin_foldl_aux xs x
    refine ⟨?_, ?_⟩
    · rcases hmem with he | hm
      · rw [he]
        exact List.mem_cons_self _ _
      · exact List.mem_cons_of_mem _ hm
    · intro z hz
      rcases List.mem_cons.mp hz with rfl | hz'
      · exact hle
      · exact hall z hz'

/-! ### Claim theorems for the wait pool -/

/-- C1 (counterexample): the claimed invariant «`active_states ⊆
submission_state` and active ↔ `full_data != null` after every operation» is
false as stated: starting from the empty pool, `add_sub_id` then
`set_fetched_data` produce a pool satisfying the invariant, but
`revert_data_fetch` resets `full_data` to `None` while deliberately keeping
the state in `active_states` ("Don't remove from active states, that would
risk a deadlock"), so afterwards the id is active with `full_data = None`. -/
theorem C1_counterexample :
    InvPool poolB ∧
    poolB.revert_data_fetch wid1 = .ok poolR ∧
    dictFind poolR.active_states wid1 = some 0 ∧
    ((poolR.heap.get? 0).bind (·.full_data)) = none ∧
    ¬ InvPool poolR :=
  ⟨by decide, rfl, by decide, by decide, by decide⟩

/-- C1 (amended): the wait-pool invariant (`active_states ⊆ submission_state`
with the same state object, and a tracked state is active iff its `full_data`
is set) is implied by pool well-formedness, and well-formedness is preserved
by `add_sub_id` (for an id that is not currently active), `set_fetched_data`,
`set_downloaded`, `set_cached`, `set_uploaded`, `pop_next_ready_to_send` and
`return_populated_state` (for a state object not currently tracked, as after
a pop).  It is not preserved by `revert_data_fetch` (which leaves an active
state with `full_data = None`, see the counterexample) nor by `remove_state`
(which deletes from `submission_state` only). -/
theorem C1_amended (p p' : WaitPool) (id : SubmissionID) (d x y z : Nat)
    (subs : List Nat) (a : Addr) (s : SubmissionCheckState)
    (r : Option (Addr × SubmissionCheckState)) :
    (WfPool p → InvPool p) ∧
    (WfPool p → dictFind p.active_states id = none → WfPool (p.add_sub_id id)) ∧
    (WfPool p → p.set_fetched_data id d subs = some p' → WfPool p') ∧
    (WfPool p → WfPool (p.set_downloaded id x)) ∧
    (WfPool p → WfPool (p.set_cached id y)) ∧
    (WfPool p → WfPool (p.set_uploaded id z)) ∧
    (WfPool p → p.pop_next_ready_to_send = .ok (r, p') → WfPool p') ∧
    (WfPool p → p.heap.get? a = some s →
      dictFind p.submission_state s.sub_id = none →
      dictFind p.active_states s.sub_id = none →
      WfPool (p.return_populated_state a)) :=
  ⟨fun h => h.1,
   fun h hn => wf_add_sub_id p id hn h,
   fun h hs => wf_set_fetched_data hs h,
   fun h => wf_set_downloaded p id x h,
   fun h => wf_set_cached p id y h,
   fun h => wf_set_uploaded p id z h,
   fun h hs => wf_pop hs h,
   fun h hg h1 h2 => wf_return_populated hg h1 h2 h⟩

/-- C1 (witness): the amended preservation statements applied along a
concrete run of the pool. -/
theorem C1_amended_witness :
    WfPool (poolEmpty.add_sub_id wid1) ∧ WfPool poolB ∧
    WfPool (poolB.set_downloaded wid1 4) ∧ WfPool (poolB.set_cached wid1 5) ∧
    WfPool (poolB.set_uploaded wid1 6) ∧ WfPool c2pool' ∧
    WfPool (c2pool'.return_populated_state 0) ∧ InvPool poolB :=
  ⟨(C1_amended poolEmpty poolEmpty wid1 0 0 0 0 [] 0 (initState wid1)
      none).2.1 (by decide) (by decide),
   (C1_amended poolA poolB wid1 7 0 0 0 [3] 0 (initState wid1)
      none).2.2.1 (by decide) rfl,
   (C1_amended poolB poolB wid1 0 4 0 0 [] 0 (initState wid1)
      none).2.2.2.1 (by decide),
   (C1_amended poolB poolB wid1 0 0 5 0 [] 0 (initState wid1)
      none).2.2.2.2.1 (by decide),
   (C1_amended poolB poolB wid1 0 0 0 6 [] 0 (initState wid1)
      none).2.2.2.2.2.1 (by decide),
   (C1_amended poolC c2pool' wid1 0 0 0 0 [] 0 c2state
      (some (0, c2state))).2.2.2.2.2.2.1 (by decide) rfl,
   (C1_amended c2pool' c2pool' wid1 0 0 0 0 [] 0 c2state
      none).2.2.2.2.2.2.2 (by decide) rfl (by decide) (by decide),
   (C1_amended poolB poolB wid1 0 0 0 0 [] 0 (initState wid1)
      none).1 (by decide)⟩

/-- C2: when `pop_next_ready_to_send` returns a state, that state's `key()`
is minimal over all states in `submission_state` at that instant, the state
is ready to send, and its id has been removed from both `submission_state`
and `active_states`; when the minimum-key state is not ready to send, the
call returns `None` and leaves the pool (in particular both maps) unchanged —
it never skips ahead to a later ready state. -/
theorem C2_pop_next_ready_to_send (p p' : WaitPool) (a am : Addr)
    (s m : SubmissionCheckState) :
    (p.pop_next_ready_to_send = .ok (some (a, s), p') →
      (∀ x ∈ p.subStateValues, s.key ≤ x.2.key) ∧
      s.is_ready_to_send = true ∧
      dictFind p'.submission_state s.sub_id = none ∧
      dictFind p'.active_states s.sub_id = none) ∧
    (WaitPool.pyMin p.subStateValues = some (am, m) →
      m.is_ready_to_send = false →
      p.pop_next_ready_to_send = .ok (none, p)) := by
  constructor
  · intro hpop
    unfold WaitPool.pop_next_ready_to_send at hpop
    cases hm : WaitPool.pyMin p.subStateValues with
    | none => simp [hm] at hpop
    | some v =>
      obtain ⟨a0, s0⟩ := v
      simp only [hm] at hpop
      by_cases hr : s0.is_ready_to_send
      · rw [if_neg (by simp [hr])] at hpop
        by_cases hn : (dictFind p.active_states s0.sub_id).isNone
        · rw [if_pos hn] at hpop
          cases hpop
        · rw [if_neg hn] at hpop
          simp only [Except.ok.injEq, Prod.mk.injEq, Option.some.injEq] at hpop
          obtain ⟨⟨rfl, rfl⟩, rfl⟩ := hpop
          refine ⟨fun x hx => (pyMin_spec hm).2 x hx, hr, ?_, ?_⟩
          · exact dictFind_dictErase_self
          · exact dictFind_dictErase_self
      · have hx : s0.is_ready_to_send = false := Bool.eq_false_iff.mpr hr
        rw [if_pos (by rw [hx]; rfl)] at hpop
        simp at hpop
  · intro hm hnr
    unfold WaitPool.pop_next_ready_to_send
    simp only [hm]
    rw [if_pos (by rw [hnr]; rfl)]

/-- C2 (witness): a pop on a concrete ready pool, and a no-op pop on a
concrete pool whose minimum-key state is not ready. -/
theorem C2_pop_next_ready_to_send_witness :
    ((∀ x ∈ poolC.subStateValues, c2state.key ≤ x.2.key) ∧
      c2state.is_ready_to_send = true ∧
      dictFind c2pool'.submission_state c2state.sub_id = none ∧
      dictFind c2pool'.active_states c2state.sub_id = none) ∧
    poolA.pop_next_ready_to_send = .ok (none, poolA) :=
  ⟨(C2_pop_next_ready_to_send poolC c2pool' 0 0 c2state c2state).1 rfl,
   (C2_pop_next_ready_to_send poolA poolA 0 0 (initState wid1)
      (initState wid1)).2 (by decide) (by decide)⟩

/-- C4: while `size_active() > max_ready_for_upload`, a `set_fetched_data`
call for an id that is not in `active_states` blocks on the media-progress
event and does not return (modelled by the `none` result); a call for an id
already in `active_states` skips the gate entirely — it returns regardless of
`size_active()`, and records the fetched data for a tracked id. -/
theorem C4_backpressure (p : WaitPool) (id : SubmissionID) (d : Nat)
    (subs : List Nat) (a : Addr) :
    (dictFind p.active_states id = none →
      p.size_active > p.max_ready_for_upload →
      p.set_fetched_data id d subs = none) ∧
    (dictFind p.active_states id = some a →
      (p.set_fetched_data id d subs).isSome = true ∧
      (∀ a2 s2, dictFind p.submission_state id = some a2 →
        p.heap.get? a2 = some s2 →
        p.set_fetched_data id d subs =
          some { p with
                 heap := p.heap.set a2
                   { s2 with
                     full_data := some d
                     matching_subscriptions := some subs }
                 active_states := dictInsert p.active_states id a2 })) := by
  constructor
  · intro h1 h2
    unfold WaitPool.set_fetched_data
    rw [if_pos ⟨by simp [h1], h2⟩]
  · intro ha
    have hgate : ¬ ((dictFind p.active_states id).isNone = true ∧
        p.size_active > p.max_ready_for_upload) := by
      intro hc
      rw [ha] at hc
      simp at hc
    constructor
    · unfold WaitPool.set_fetched_data
      rw [if_neg hgate]
      cases dictFind p.submission_state id <;> simp
    · intro a2 s2 hf hg
      unfold WaitPool.set_fetched_data
      rw [if_neg hgate]
      simp only [hf, WaitPool.heapModify, hg]

/-- C4 (witness): on a pool with backpressure limit 0 and one active state,
fetching data for a fresh id blocks, while a refresh of the active id
returns. -/
theorem C4_backpressure_witness :
    pool0B.set_fetched_data wid2 5 [] = none ∧
    (pool0B.set_fetched_data wid1 11 [4]).isSome = true :=
  ⟨(C4_backpressure pool0B wid2 5 [] 0).1 (by decide) (by decide),
   ((C4_backpressure pool0B wid1 11 [4] 0).2 (by decide)).1⟩

/-- C9 (counterexample): the claim «for every id not in `submission_state`
the publishing operations, `set_fetched_data` included, return normally and
leave the maps unchanged» is false: on a pool whose backpressure gate is
closed (`size_active > max_ready_for_upload`), `set_fetched_data` for an
unknown (hence inactive) id blocks on the media-progress event and does not
return (the `none` result of the model). -/
theorem C9_counterexample :
    dictFind pool0B.submission_state wid2 = none ∧
    pool0B.set_fetched_data wid2 5 [] = none :=
  ⟨by decide, by decide⟩

/-- C9 (amended): for an id not in `submission_state`, `set_downloaded`,
`set_cached` and `set_uploaded` return normally and leave the pool unchanged
(the published result is silently dropped), and so does `set_fetched_data`
provided its backpressure gate is open (`size_active ≤ max_ready_for_upload`);
`remove_state` on an unknown id raises a `ValueError`. -/
theorem C9_amended (p : WaitPool) (id : SubmissionID) (x y z d : Nat)
    (subs : List Nat) (h : dictFind p.submission_state id = none) :
    p.set_downloaded id x = p ∧
    p.set_cached id y = p ∧
    p.set_uploaded id z = p ∧
    p.remove_state id =
      .error "This state cannot be removed because it is not in the wait pool" ∧
    (p.size_active ≤ p.max_ready_for_upload →
      p.set_fetched_data id d subs = some p) := by
  refine ⟨?_, ?_, ?_, ?_, ?_⟩
  · unfold WaitPool.set_downloaded
    rw [h]
  · unfold WaitPool.set_cached
    rw [h]
  · unfold WaitPool.set_uploaded
    rw [h]
  · unfold WaitPool.remove_state
    rw [h]
  · intro hle
    unfold WaitPool.set_fetched_data
    rw [if_neg (fun hc => absurd hc.2 (not_lt.mpr hle))]
    simp only [h]

/-- C9 (witness): the amended statement applied to a concrete pool and a
concrete unknown id. -/
theorem C9_amended_witness :
    poolB.set_downloaded wid2 1 = poolB ∧
    poolB.set_cached wid2 2 = poolB ∧
    poolB.set_uploaded wid2 3 = poolB ∧
    poolB.remove_state wid2 =
      .error "This state cannot be removed because it is not in the wait pool" ∧
    poolB.set_fetched_data wid2 4 [] = some poolB := by
  obtain ⟨h1, h2, h3, h4, h5⟩ := C9_amended poolB wid2 1 2 3 4 [] (by decide)
  exact ⟨h1, h2, h3, h4, h5 (by decide)⟩

/-- Resetting a freshly created state is the identity. -/
theorem reset_initState (id : SubmissionID) :
    (initState id).reset = initState id :=
  rfl

/-- C6: frame of `revert_data_fetch(id)` when the re-queue succeeds.  If the
id is unknown, a fresh empty `CheckState` is inserted; otherwise the tracked
state object has `full_data`, `matching_subscriptions`, `media_downloading`,
`dl_file`, `media_uploading`, `cache_entry` and `uploaded_media` reset to
their initial values while `sub_id` and `sent_to` are unchanged; in both
cases `active_states` is untouched (the state is *not* removed from it) and
the id is appended to the fetch queue's refresh tier, the new tier being left
alone. -/
theorem C6_revert_frame (p p' : WaitPool) (id : SubmissionID) (a : Addr)
    (s : SubmissionCheckState) :
    (dictFind p.submission_state id = none →
      p.revert_data_fetch id = .ok p' →
      p'.heap.get? p.heap.length = some (initState id) ∧
      dictFind p'.submission_state id = some p.heap.length ∧
      p'.active_states = p.active_states ∧
      p'.fetch_data_queue.refreshQ = p.fetch_data_queue.refreshQ ++ [id] ∧
      p'.fetch_data_queue.newQ = p.fetch_data_queue.newQ) ∧
    (dictFind p.submission_state id = some a →
      p.heap.get? a = some s →
      p.revert_data_fetch id = .ok p' →
      p'.heap.get? a = some s.reset ∧
      s.reset.sub_id = s.sub_id ∧
      s.reset.sent_to = s.sent_to ∧
      s.reset.full_data = none ∧
      s.reset.matching_subscriptions = none ∧
      s.reset.media_downloading = false ∧
      s.reset.dl_file = none ∧
      s.reset.media_uploading = false ∧
      s.reset.cache_entry = none ∧
      s.reset.uploaded_media = none ∧
      p'.submission_state = p.submission_state ∧
      p'.active_states = p.active_states ∧
      p'.fetch_data_queue.refreshQ = p.fetch_data_queue.refreshQ ++ [id] ∧
      p'.fetch_data_queue.newQ = p.fetch_data_queue.newQ) := by
  constructor
  · intro hf hrev
    unfold WaitPool.revert_data_fetch at hrev
    simp only [hf, dictFind_dictInsert_self, WaitPool.heapModify,
      List.get?_concat_length] at hrev
    cases hq : (p.fetch_data_queue.put_refresh id) with
    | error e =>
      rw [hq] at hrev
      cases hrev
    | ok q =>
      rw [hq] at hrev
      simp only [Except.map, Except.ok.injEq] at hrev
      obtain rfl := hrev
      simp only [FetchQueue.put_refresh] at hq
      split at hq
      · cases hq
      · simp only [Except.ok.injEq] at hq
        obtain rfl := hq
        refine ⟨?_, ?_, rfl, rfl, rfl⟩
        · rw [List.get?_set_eq_of_lt]
          · rfl
          · simp
        · exact dictFind_dictInsert_self
  · intro hf hg hrev
    unfold WaitPool.revert_data_fetch at hrev
    simp only [hf, WaitPool.heapModify, hg] at hrev
    cases hq : (p.fetch_data_queue.put_refresh id) with
    | error e =>
      rw [hq] at hrev
      cases hrev
    | ok q =>
      rw [hq] at hrev
      simp only [Except.map, Except.ok.injEq] at hrev
      obtain rfl := hrev
      simp only [FetchQueue.put_refresh] at hq
      split at hq
      · cases hq
      · simp only [Except.ok.injEq] at hq
        obtain rfl := hq
        refine ⟨?_, rfl, rfl, rfl, rfl, rfl, rfl, rfl, rfl, rfl, rfl, rfl,
          rfl, rfl⟩
        rw [List.get?_set_eq_of_lt]
        exact lt_length_of_get?_eq_some hg

/-- C6 (witness): revert of an unknown id on the empty pool, and revert of
the tracked id of a concrete populated pool. -/
theorem C6_revert_frame_witness :
    (poolRev0.heap.get? 0 = some (initState wid1) ∧
      dictFind poolRev0.submission_state wid1 = some 0 ∧
      poolRev0.active_states = poolEmpty.active_states) ∧
    (poolR.heap.get? 0 = some poolBstate.reset ∧
      poolBstate.reset.sent_to = poolBstate.sent_to ∧
      poolBstate.reset.full_data = none ∧
      poolR.active_states = poolB.active_states ∧
      poolR.fetch_data_queue.refreshQ =
        poolB.fetch_data_queue.refreshQ ++ [wid1]) := by
  obtain ⟨h1, h2, h3, -, -⟩ :=
    (C6_revert_frame poolEmpty poolRev0 wid1 0 (initState wid1)).1
      (by decide) rfl
  obtain ⟨g1, -, g3, g4, -, -, -, -, -, -, -, g11, g12, -⟩ :=
    (C6_revert_frame poolB poolR wid1 0 poolBstate).2
      (by decide) (by decide) rfl
  exact ⟨⟨h1, h2, h3⟩, g1, g3, g4, g11, g12⟩

/-! ### Match spans of non-degenerate queries are nonempty -/

theorem mem_dedup {l : MatchLocation} {ls : List MatchLocation} :
    l ∈ dedup ls ↔ l ∈ ls := by
  induction ls with
  | nil => simp [dedup]
  | cons x xs ih =>
    unfold dedup at ih ⊢
    rw [List.foldr_cons]
    by_cases hc : (xs.foldr (fun l acc =>
        if acc.contains l then acc else l :: acc) []).contains x
    · rw [if_pos hc]
      rw [List.mem_cons]
      constructor
      · intro h
        exact Or.inr (ih.mp h)
      · intro h
        rcases h with rfl | h
        · simpa using hc
        · exact ih.mpr h
    · rw [if_neg hc]
      rw [List.mem_cons, List.mem_cons]
      exact or_congr Iff.rfl ih

theorem scanFrom_sound (f : Nat → Option Nat) (tlen : Nat) :
    ∀ (fuel i : Nat), ∀ m ∈ scanFrom f tlen fuel i, f m.1 = some m.2 := by
  intro fuel
  induction fuel with
  | zero =>
    intro i m hm
    cases hm
  | succ n ih =>
    intro i m hm
    unfold scanFrom at hm
    by_cases hi : i > tlen
    · rw [if_pos hi] at hm
      cases hm
    · rw [if_neg hi] at hm
      cases hfi : f i with
      | none =>
        rw [hfi] at hm
        exact ih _ m hm
      | some j =>
        rw [hfi] at hm
        rcases List.mem_cons.mp hm with rfl | hm'
        · exact hfi
        · exact ih _ m hm'

theorem phraseMatchAt_pos {lit t : Str} {i j : Nat} (hne : lit ≠ [])
    (h : phraseMatchAt lit t i = some j) : i < j := by
  unfold phraseMatchAt at h
  split at h
  · obtain rfl : i + lit.length = j := Option.some.inj h
    have : 0 < lit.length := List.length_pos.mpr hne
    omega
  · cases h

theorem pfxMatchAt_pos {lit t : Str} {i j : Nat}
    (h : pfxMatchAt lit t i = some j) : i < j := by
  unfold pfxMatchAt at h
  split at h
  · next hcond =>
    obtain rfl : i + lit.length + maxRun t (i + lit.length) = j :=
      Option.some.inj h
    have h1 : 1 ≤ maxRun t (i + lit.length) := by
      have := (Bool.and_eq_true _ _).mp hcond
      simpa using this.2
    omega
  · cases h

theorem sfxFind_pos {t lit : Str} {i j : Nat} :
    ∀ k, sfxFind t lit i k = some j → i < j := by
  intro k
  induction k with
  | zero =>
    intro h
    cases h
  | succ n ih =>
    intro h
    unfold sfxFind at h
    split at h
    · obtain rfl : i + (n + 1) + lit.length = j := Option.some.inj h
      omega
    · exact ih h

theorem sfxMatchAt_pos {lit t : Str} {i j : Nat}
    (h : sfxMatchAt lit t i = some j) : i < j := by
  unfold sfxMatchAt at h
  split at h
  · exact sfxFind_pos _ h
  · cases h

theorem wildTryK_ge (t p : Str) (cont : Nat → Option Nat) (j : Nat)
    (hc : ∀ n e, cont n = some e → n ≤ e) :
    ∀ k e, wildTryK t p cont j k = some e → j + 1 ≤ e := by
  intro k
  induction k with
  | zero =>
    intro e h
    cases h
  | succ n ih =>
    intro e h
    unfold wildTryK at h
    split at h
    · cases hcont : cont (j + (n + 1) + p.length) with
      | some e' =>
        rw [hcont] at h
        obtain rfl : e' = e := Option.some.inj h
        have := hc _ _ hcont
        omega
      | none =>
        rw [hcont] at h
        exact ih e h
    · exact ih e h

theorem wildTail_ge (t : Str) :
    ∀ (ps : List Str) (n e : Nat), wildTail t ps n = some e → n ≤ e := by
  intro ps
  induction ps with
  | nil =>
    intro n e h
    unfold wildTail at h
    split at h
    · exact Nat.le_of_eq (Option.some.inj h)
    · cases h
  | cons p ps ih =>
    intro n e h
    unfold wildTail at h
    have := wildTryK_ge t p (fun j2 => wildTail t ps j2) n
      (fun n2 e2 h2 => ih n2 e2 h2) (maxRun t n) e h
    omega

theorem wildMatchAt_pos {parts : List Str} {t : Str} {i j : Nat}
    (hnd : (match parts with
            | [p] => decide (p ≠ [])
            | _ => true) = true)
    (h : wildMatchAt parts t i = some j) : i < j := by
  match parts with
  | [] => cases h
  | [p0] =>
    simp only [wildMatchAt, wildTail, Option.ite_none_right_eq_some,
      Option.some.injEq] at h
    obtain ⟨h1, h2, h3⟩ := h
    have hp : p0 ≠ [] := by simpa [nonDeg] using hnd
    have : 0 < p0.length := List.length_pos.mpr hp
    omega
  | p0 :: p1 :: rest =>
    simp only [wildMatchAt, Option.ite_none_right_eq_some] at h
    obtain ⟨h1, h2⟩ := h
    rw [show wildTail t (p1 :: rest) (i + p0.length) =
        wildTryK t p1 (fun j2 => wildTail t rest j2) (i + p0.length)
          (maxRun t (i + p0.length)) from rfl] at h2
    have := wildTryK_ge t p1 (fun j2 => wildTail t rest j2) (i + p0.length)
      (fun n2 e2 he => wildTail_ge t rest n2 e2 he)
      (maxRun t (i + p0.length)) j h2
    omega

theorem locsOf_pos {f : Str → Nat → Option Nat}
    (hf : ∀ t i j, f t i = some j → i < j)
    (dict : List (FieldLocation × Str)) :
    ∀ l ∈ locsOf f dict, l.startPos < l.stopPos := by
  intro l hl
  unfold locsOf at hl
  simp only [List.mem_flatMap, List.mem_map] at hl
  obtain ⟨b, hb, m, hm, rfl⟩ := hl
  exact hf b.2 m.1 m.2 (scanFrom_sound _ _ _ _ m hm)

theorem mem_matchLocationsList {qs : List LocQuery} {T : QueryTarget}
    {l : MatchLocation} (h : l ∈ matchLocationsList qs T) :
    ∃ q ∈ qs, l ∈ matchLocations q T := by
  induction qs with
  | nil => cases h
  | cons q qs ih =>
    unfold matchLocationsList at h
    rcases List.mem_append.mp h with h1 | h2
    · exact ⟨q, List.mem_cons_self _ _, h1⟩
    · obtain ⟨q', hq', hl'⟩ := ih h2
      exact ⟨q', List.mem_cons_of_mem _ hq', hl'⟩

theorem nonDegList_forall {qs : List LocQuery} (h : nonDegList qs = true) :
    ∀ q ∈ qs, nonDeg q = true := by
  induction qs with
  | nil =>
    intro q hq
    cases hq
  | cons x xs ih =>
    unfold nonDegList at h
    obtain ⟨h1, h2⟩ := (Bool.and_eq_true _ _).mp h
    intro q hq
    rcases List.mem_cons.mp hq with rfl | hq'
    · exact h1
    · exact ih h2 q hq'

/-- Every match location of a non-degenerate location query is a nonempty
span. -/
theorem matchLocations_pos :
    ∀ (q : LocQuery) (T : QueryTarget), nonDeg q = true →
      ∀ l ∈ matchLocations q T, l.startPos < l.stopPos
  | .word w f, T, h, l, hl =>
    locsOf_pos (fun t i j hm =>
      phraseMatchAt_pos (by simpa [nonDeg] using h) hm) _ l hl
  | .pfx p f, T, h, l, hl =>
    locsOf_pos (fun t i j hm => pfxMatchAt_pos hm) _ l hl
  | .sfx s f, T, h, l, hl =>
    locsOf_pos (fun t i j hm => sfxMatchAt_pos hm) _ l hl
  | .phrase p f, T, h, l, hl =>
    locsOf_pos (fun t i j hm =>
      phraseMatchAt_pos (by simpa [nonDeg] using h) hm) _ l hl
  | .wild parts f, T, h, l, hl =>
    locsOf_pos (fun t i j hm =>
      wildMatchAt_pos (by simpa [nonDeg] using h) hm) _ l hl
  | .locOr qs, T, h, l, hl => by
    have hl2 : l ∈ matchLocationsList qs T := by
      have : l ∈ dedup (matchLocationsList qs T) := by
        simpa [matchLocations] using hl
      exact mem_dedup.mp this
    obtain ⟨q', hq', hlq⟩ := mem_matchLocationsList hl2
    have hnd : nonDeg q' = true :=
      nonDegList_forall (by simpa [nonDeg] using h) q' hq'
    exact matchLocations_pos q' T hnd l hlq
  termination_by q => sizeOf q
  decreasing_by
    simp_wf
    have := List.sizeOf_lt_of_mem hq'
    omega

/-- On nonempty spans, the implementation's `overlaps` coincides with
same-field plus half-open range intersection. -/
theorem overlaps_eq_intersect {l1 l2 : MatchLocation}
    (h1 : l1.startPos < l1.stopPos) (h2 : l2.startPos < l2.stopPos) :
    l1.overlaps l2 = specSpansIntersect l1 l2 := by
  unfold MatchLocation.overlaps specSpansIntersect
  by_cases hf : l1.field = l2.field
  · rw [if_neg (by simpa using hf)]
    have hbeq : (l1.field == l2.field) = true := by simpa using hf
    rw [hbeq, Bool.true_and]
    split_ifs with hlt
    · rw [decide_eq_decide]
      omega
    · rw [decide_eq_decide]
      omega
  · rw [if_pos (by simpa using hf)]
    have hbeq : (l1.field == l2.field) = false := by simpa using hf
    rw [hbeq, Bool.false_and]

theorem specSpansIntersect_iff {l1 l2 : MatchLocation} :
    specSpansIntersect l1 l2 = true ↔
      l1.field = l2.field ∧
        max l1.startPos l2.startPos < min l1.stopPos l2.stopPos := by
  simp [specSpansIntersect]

/-! ### Claim theorems for the query engine -/

/-- C3 (counterexample): with `w = PhraseQuery("a  b")` and the degenerate
`e = PhraseQuery("")` on a target whose title is "a  b", the only `w`-span is
`[0, 4)` and the only `e`-span is the zero-width `[2, 2)`; their half-open
ranges do not intersect (the `e`-range is empty), yet the implementation's
`overlaps` reports an overlap, so `matches_submission` returns `False` while
the claimed characterisation says it must return `True`. -/
theorem C3_counterexample :
    ¬ (matchesSubmission (.exceptQ c3w c3e) c3target = true ↔
        ∃ l ∈ matchLocations c3w c3target,
          ∀ l2 ∈ matchLocations c3e c3target,
            ¬(l.field = l2.field ∧
              max l.startPos l2.startPos < min l.stopPos l2.stopPos)) ∧
    matchesSubmission (.exceptQ c3w c3e) c3target = false ∧
    specExceptMatches c3w c3e c3target = true ∧
    nonDeg c3e = false :=
  ⟨by decide, by decide, by decide, by decide⟩

/-- C3 (amended): for non-degenerate location queries `w` and `e` (no empty
word or phrase literal, so every match span is nonempty),
`ExceptionQuery(w, e).matches_submission(T)` is true iff some `w`-location
overlaps no `e`-location, where two locations overlap iff they have the same
`FieldLocation` and their half-open ranges intersect.  (For degenerate
queries the implementation's `overlaps` also counts a zero-width span lying
on or inside another span, see the counterexample.) -/
theorem C3_amended (w e : LocQuery) (T : QueryTarget)
    (hw : nonDeg w = true) (he : nonDeg e = true) :
    matchesSubmission (.exceptQ w e) T = true ↔
      ∃ l ∈ matchLocations w T,
        ∀ l2 ∈ matchLocations e T,
          ¬(l.field = l2.field ∧
            max l.startPos l2.startPos < min l.stopPos l2.stopPos) := by
  have hcode : matchesSubmission (.exceptQ w e) T =
      (matchLocations w T).any
        (fun l => !(l.overlapsAny (matchLocations e T))) := rfl
  rw [hcode, List.any_eq_true]
  constructor
  · rintro ⟨l, hl, hb⟩
    refine ⟨l, hl, ?_⟩
    intro l2 hl2 hcontra
    rw [Bool.not_eq_true'] at hb
    unfold MatchLocation.overlapsAny at hb
    have hov := List.any_eq_false.mp hb l2 hl2
    rw [overlaps_eq_intersect (matchLocations_pos w T hw l hl)
        (matchLocations_pos e T he l2 hl2)] at hov
    exact hov (specSpansIntersect_iff.mpr hcontra)
  · rintro ⟨l, hl, hall⟩
    refine ⟨l, hl, ?_⟩
    rw [Bool.not_eq_true']
    unfold MatchLocation.overlapsAny
    rw [List.any_eq_false]
    intro l2 hl2
    rw [overlaps_eq_intersect (matchLocations_pos w T hw l hl)
        (matchLocations_pos e T he l2 hl2)]
    intro hspec
    exact hall l2 hl2 (specSpansIntersect_iff.mp hspec)

/-- C3 (witness): the amended equivalence at concrete non-degenerate queries
(`cat EXCEPT cats`) and a concrete target. -/
theorem C3_amended_witness :
    matchesSubmission
        (.exceptQ (.word (strL "cat") .anyField)
          (.word (strL "cats") .anyField)) c3target2 = true ↔
      ∃ l ∈ matchLocations (.word (strL "cat") .anyField) c3target2,
        ∀ l2 ∈ matchLocations (.word (strL "cats") .anyField) c3target2,
          ¬(l.field = l2.field ∧
            max l.startPos l2.startPos < min l.stopPos l2.stopPos) :=
  C3_amended (.word (strL "cat") .anyField) (.word (strL "cats") .anyField)
    c3target2 (by decide) (by decide)

/-- C5: `PrefixQuery(p, F).matches_submission(T)` holds iff some word of
field `F`'s word list has `lowercase(p)` as a proper prefix (strictly
longer), and symmetrically for `SuffixQuery`; concretely,
`Prefix("foo", TitleField)` matches title `["foobar"]`, does not match title
`["foo"]`, and does not match when "foobar" appears only in the
description. -/
theorem C5_prefix_suffix (p s : Str) (f : FieldSel) (T : QueryTarget) :
    (locMatches (.pfx p f) T = true ↔
      ∃ wd ∈ fieldWords f T, lowerStr p <+: wd ∧ wd ≠ lowerStr p) ∧
    (locMatches (.sfx s f) T = true ↔
      ∃ wd ∈ fieldWords f T, lowerStr s <:+ wd ∧ wd ≠ lowerStr s) ∧
    locMatches (.pfx (strL "foo") .title) c5foobar = true ∧
    locMatches (.pfx (strL "foo") .title) c5foo = false ∧
    locMatches (.pfx (strL "foo") .title) c5desc = false := by
  refine ⟨?_, ?_, by decide, by decide, by decide⟩
  · rw [show locMatches (.pfx p f) T =
        (fieldWords f T).any (fun wd =>
          (lowerStr p).isPrefixOf wd && decide (wd ≠ lowerStr p)) from rfl]
    rw [List.any_eq_true]
    simp only [Bool.and_eq_true, List.isPrefixOf_iff_prefix, decide_eq_true_eq]
  · rw [show locMatches (.sfx s f) T =
        (fieldWords f T).any (fun wd =>
          (lowerStr s).isSuffixOf wd && decide (wd ≠ lowerStr s)) from rfl]
    rw [List.any_eq_true]
    simp only [Bool.and_eq_true, List.isSuffixOf_iff_suffix, decide_eq_true_eq]

/-! ### Boolean structure of `And` -/

theorem allMatch_nil (T : QueryTarget) : allMatch [] T = true := rfl

theorem allMatch_cons (q : Query) (qs : List Query) (T : QueryTarget) :
    allMatch (q :: qs) T = (matchesSubmission q T && allMatch qs T) := rfl

theorem matchesSubmission_andQ (l : List Query) (T : QueryTarget) :
    matchesSubmission (.andQ l) T = allMatch l T := rfl

theorem allMatch_append (l1 l2 : List Query) (T : QueryTarget) :
    allMatch (l1 ++ l2) T = (allMatch l1 T && allMatch l2 T) := by
  induction l1 with
  | nil => simp [allMatch_nil]
  | cons q qs ih =>
    rw [List.cons_append, allMatch_cons, allMatch_cons, ih, Bool.and_assoc]

theorem flattenAnd_all (qs : List Query) (T : QueryTarget) :
    allMatch (flattenAnd qs) T = allMatch qs T := by
  induction qs with
  | nil => rfl
  | cons q qs ih =>
    have hq : flattenAnd (q :: qs) =
        (match q with
         | .andQ l => l
         | _ => [q]) ++ flattenAnd qs := rfl
    rw [hq, allMatch_append, ih]
    cases q <;>
      simp [allMatch_cons, allMatch_nil, matchesSubmission_andQ]

/-- Flattening by the `AndQuery` constructor does not change the matching
semantics. -/
theorem mkAnd_matches (qs : List Query) (T : QueryTarget) :
    matchesSubmission (mkAnd qs) T = allMatch qs T :=
  flattenAnd_all qs T

/-- C8: for a non-paused subscription, the optimised two-call evaluation
`matches_result(S, B)` agrees with the composed
`AndQuery([query, B]).matches_submission(S)`; a paused subscription matches
nothing. -/
theorem C8_matches_result_equiv (s : Subscription) (T : QueryTarget)
    (B : Query) :
    (s.paused = false →
      s.matches_result T (some B) =
        matchesSubmission (mkAnd [s.query, B]) T) ∧
    (s.paused = true → s.matches_result T (some B) = false) := by
  constructor
  · intro hp
    unfold Subscription.matches_result
    rw [hp, if_neg (by simp)]
    rw [mkAnd_matches, allMatch_cons, allMatch_cons, allMatch_nil,
      Bool.and_true]
  · intro hp
    unfold Subscription.matches_result
    rw [hp, if_pos rfl]

/-- C8 (witness): the equivalence at a concrete subscription, blocklist query
and target, and the paused case. -/
theorem C8_matches_result_equiv_witness :
    c8sub.matches_result c3target2 (some c8block) =
      matchesSubmission (mkAnd [c8sub.query, c8block]) c3target2 ∧
    c8subPaused.matches_result c3target2 (some c8block) = false :=
  ⟨(C8_matches_result_equiv c8sub c3target2 c8block).1 rfl,
   (C8_matches_result_equiv c8subPaused c3target2 c8block).2 rfl⟩

/-- C10: a `DestinationBlocklist` with an empty blocklist map combines to
`AndQuery([])`, and the empty conjunction matches every target, so such a
destination never excludes any submission. -/
theorem C10_empty_blocklist (dest : Int) (T : QueryTarget) :
    DestinationBlocklist.as_combined_query ⟨dest, []⟩ = .andQ [] ∧
    matchesSubmission (.andQ []) T = true ∧
    matchesSubmission (DestinationBlocklist.as_combined_query ⟨dest, []⟩) T =
      true :=
  ⟨rfl, rfl, rfl⟩

/-! ### Reserved words and the parser (C7) -/

theorem char_toNat_ofNat (n : Nat) (h : 97 ≤ n) (h2 : n ≤ 122) :
    (Char.ofNat n).toNat = n := by
  have hv : n.isValidChar := Or.inl (by omega)
  rw [Char.ofNat, dif_pos hv]
  simp [Char.ofNatAux, Char.toNat, UInt32.toNat, BitVec.toNat_ofNatLt]

theorem toLower_cases (c d : Char) (h : c.toLower = d) :
    c = d ∨ c = Char.ofNat (d.toNat - 32) := by
  simp only [Char.toLower] at h
  split at h
  · right
    next hcond =>
      have h65 : 65 ≤ c.toNat := hcond.1
      have h90 : c.toNat ≤ 90 := hcond.2
      have hd : d.toNat = c.toNat + 32 := by
        rw [← h]
        exact char_toNat_ofNat _ (by omega) (by omega)
      have he : d.toNat - 32 = c.toNat := by omega
      rw [he, Char.ofNat_toNat]
  · left
    exact h

theorem mem_caseVariants : ∀ (w s : Str), lowerStr s = w → s ∈ caseVariants w := by
  intro w
  induction w with
  | nil =>
    intro s h
    have hs : s = [] := by simpa [lowerStr] using h
    rw [hs]
    simp [caseVariants]
  | cons d ds ih =>
    intro s h
    cases s with
    | nil => simp [lowerStr] at h
    | cons c cs =>
      simp only [lowerStr, List.map_cons, List.cons.injEq] at h
      obtain ⟨h1, h2⟩ := h
      unfold caseVariants
      rcases toLower_cases c d h1 with rfl | rfl
      · exact List.mem_append.mpr
          (Or.inl (List.mem_map.mpr ⟨cs, ih cs h2, rfl⟩))
      · exact List.mem_append.mpr
          (Or.inr (List.mem_map.mpr ⟨cs, ih cs h2, rfl⟩))

theorem isPhraseOk_iff {r : Except String Query} {s : Str} :
    isPhraseOk r s = true ↔ r = .ok (.locQ (.phrase s .anyField)) := by
  cases r with
  | error e => simp [isPhraseOk]
  | ok q =>
    cases q with
    | locQ l => cases l <;> simp [isPhraseOk, and_comm]
    | ratingQ r => simp [isPhraseOk]
    | andQ qs => simp [isPhraseOk]
    | orQ qs => simp [isPhraseOk]
    | notQ q => simp [isPhraseOk]
    | exceptQ w e => simp [isPhraseOk]

set_option maxRecDepth 4000 in
theorem reserved_variants_error :
    ∀ w ∈ reservedKeywords, ∀ s ∈ caseVariants w,
      isErr (parse_query s) = true := by
  decide

set_option maxRecDepth 4000 in
theorem reserved_variants_quoted :
    ∀ w ∈ reservedKeywords, ∀ s ∈ caseVariants w,
      isPhraseOk (parse_query ('\"' :: (s ++ ['\"']))) s = true := by
  decide

/-- C7: every query string whose lower-casing is one of the bare reserved
words `not`, `and`, `or`, `except`, `ignore` makes `parse_query` raise
`InvalidQueryException` (either the grammar fails — `not` is swallowed by the
negator, leaving no element — or `parse_word` rejects the reserved keyword),
while the same word surrounded by double quotes parses into a `PhraseQuery`
on the default `AnyField`, so it can be matched literally. -/
theorem C7_reserved_words (s : Str) (h : lowerStr s ∈ reservedKeywords) :
    isErr (parse_query s) = true ∧
    parse_query ('\"' :: (s ++ ['\"'])) =
      .ok (.locQ (.phrase s .anyField)) := by
  have hs : s ∈ caseVariants (lowerStr s) := mem_caseVariants _ s rfl
  exact ⟨reserved_variants_error _ h s hs,
    isPhraseOk_iff.mp (reserved_variants_quoted _ h s hs)⟩

/-- C7 (witness): the reserved word `not`, bare and quoted. -/
theorem C7_reserved_words_witness :
    isErr (parse_query (strL "not")) = true ∧
    parse_query ('\"' :: (strL "not" ++ ['\"'])) =
      .ok (.locQ (.phrase (strL "not") .anyField)) :=
  C7_reserved_words (strL "not") (by decide)

end FASearch
